import Mathlib

set_option maxRecDepth 8000

/-!
Verification of the gopherbot event pipeline against its specification.

The Go sources are shallowly embedded: Go strings become `List Char`
(written `Str` below), machine integers become `Int`/`Nat`, wall-clock
reads (`time.Now()`, `time.Since(...)`) become explicit arguments, and
fallible Go functions returning `error` become `Except`/`Option` values.
Effectful loops (handler batches, the heartbeat monitor) are embedded as
explicit recursion that additionally records the observable effects (the
actions invoked, the warnings emitted) as data.
-/

namespace Gopherbot

/-- Go strings, modelled as their sequence of runes. -/
abbrev Str := List Char

/-! ## Small Go standard-library helpers used by the embedded code -/

/-- One lower-case hexadecimal digit, as produced by Go's `%x` verb. -/
def hexDigit (n : Nat) : Char :=
  if n < 10 then Char.ofNat ('0'.toNat + n) else Char.ofNat ('a'.toNat + (n - 10))

/-- A byte rendered as two lower-case hex digits (`%x` on a byte). -/
def byteToHex (b : Nat) : Str :=
  [hexDigit (b / 16 % 16), hexDigit (b % 16)]

/-- `strconv.ParseInt(t, 10, 64)`: optional sign, decimal digits only,
    must fit in a signed 64-bit integer. -/
def parseInt64 (t : Str) : Option Int :=
  match t with
  | [] => none
  | c :: rest =>
    let (neg, digits) :=
      if c = '-' then (true, rest)
      else if c = '+' then (false, rest)
      else (false, t)
    if digits = [] then none
    else if digits.all Char.isDigit then
      let n : Nat := digits.foldl (fun a d => a * 10 + (d.toNat - '0'.toNat)) 0
      let v : Int := if neg then -(n : Int) else (n : Int)
      if v < -(2 ^ 63) ∨ v > 2 ^ 63 - 1 then none else some v
    else none

/-- `%d` formatting of a signed integer. -/
def intToStr (i : Int) : Str := (toString i).data

/-! ## signing/signing.go -/

/-- `signing.Request`: the pieces of an HTTP request needed for validation. -/
structure SigningRequest where
  timestamp : Str
  signature : Str
  body : Str

/-- `genHMAC` from signing.go: `fmt.Sprintf("v0=%x", m.Sum(nil))` where `m`
    is an HMAC-SHA256 over `data` keyed by `key`. The digest computation
    lives in Go's `crypto` standard library (not in this repository), so it
    is passed in as the function `mac`, returning the digest bytes; the
    validator never inspects the digest beyond equality of its rendering. -/
def genHMAC (mac : Str → Str → List Nat) (key data : Str) : Str :=
  ['v', '0', '='] ++ ((mac key data).map byteToHex).flatten

/-- `parseTimestamp` from signing.go. `now` stands for `time.Now().Unix()`.
    Note the one-sided staleness test `now - ts > 300`. -/
def parseTimestamp (now : Int) (t : Str) : Except Str Int :=
  match parseInt64 t with
  | none => .error ("failed to parse X-Slack-Request-Timestamp header".data)
  | some ts =>
    if now - ts > 300 then .error ("request timestamp too old".data)
    else .ok ts

/-- The signed payload `fmt.Sprintf("v0:%d:%s", ts, string(r.Body))`. -/
def signedPayload (ts : Int) (body : Str) : Str :=
  ['v', '0', ':'] ++ intToStr ts ++ [':'] ++ body

/-- `signing.Validate` from signing.go. `hmac.Equal` is a constant-time
    byte-slice comparison; observationally it is equality, which is how it
    is modelled. -/
def Validate (mac : Str → Str → List Nat) (now : Int) (key : Str)
    (r : SigningRequest) : Except Str Unit :=
  if r.timestamp.length = 0 then
    .error ("X-Slack-Request-Timestamp header not present".data)
  else if r.signature.length = 0 then
    .error ("X-Slack-Signature header not present".data)
  else
    match parseTimestamp now r.timestamp with
    | .error e => .error e
    | .ok ts =>
      if r.signature = genHMAC mac key (signedPayload ts r.body) then .ok ()
      else .error ("signature does not match".data)

/-! ## internal/heartbeat/heartbeat.go — the monitor loop -/

/-- One tick of the `switch` inside `Heart.monitor`, sampling the age `dur`
    of the last successful beat (`time.Since(last)`, in nanoseconds).
    Returns `(new warn flag, warning emitted, bailed out)`; Go's
    expression-less `switch` runs only the first case whose condition
    holds. -/
def monitorTick (warnT failT : Int) (warn : Bool) (dur : Int) :
    Bool × Bool × Bool :=
  if dur < warnT then (false, false, false)
  else if dur ≥ warnT ∧ warn = false then (true, true, false)
  else if dur ≥ failT ∧ warn = true then (warn, false, true)
  else (warn, false, false)

/-- The `Heart.monitor` loop over a sequence of sampled ages, one per
    ticker tick, starting from warn flag `warn` (`false` at loop entry).
    Each trace entry records `(sampled age, warning emitted, bailed)`;
    `bailout` calls `h.l.Fatal()` which exits the process, so the trace
    stops at the first bailout. -/
def monitorTrace (warnT failT : Int) (warn : Bool) : List Int → List (Int × Bool × Bool)
  | [] => []
  | d :: ds =>
    let r := monitorTick warnT failT warn d
    (d, r.2.1, r.2.2) :: (if r.2.2 then [] else monitorTrace warnT failT r.1 ds)

/-! ## mparser/mparser.go -/

/-- `mparser.Type`. The Go code is a bit-flag enum; `invalid` stands for the
    out-of-range value `100` returned by `typeFromStr` on unknown input. -/
inductive MType
  | user | group | here | channel | everyone | channelRef | invalid
  deriving DecidableEq, Repr

/-- `mparser.Mention`. -/
structure Mention where
  type : MType
  id : Str
  label : Str := []
  deriving DecidableEq, Repr

/-- `typeFromStr` from mparser.go. -/
def typeFromStr (s : Str) : MType :=
  if s = "channel".data then .channel
  else if s = "here".data then .here
  else if s = "everyone".data then .everyone
  else .invalid

/-- The parser mode `pmode`. -/
inductive Pmode
  | pmodeInit | pmodeOpen | pmodeAt | pmodeEx | pmodeHash | pmodePipe
  | pmodeUser | pmodeGroup
  deriving DecidableEq, Repr

/-- The mutable state of the `Parse` loop: `mode`, the token `buffer`, the
    kept-aside channel id `tmp`, the span `start`, and the two output
    accumulators. -/
structure PState where
  mode : Pmode := .pmodeInit
  buffer : Str := []
  tmp : Str := []
  start : Nat := 0
  mentions : List Mention := []
  locations : List (Nat × Nat) := []
  deriving Repr

/-- One iteration of the `for i, r := range message` switch in `Parse`.
    Go's inner `switch mode` under `case '>'` falls through (via `break`) to
    the common state reset `tmp = ""; buffer.Reset(); mode = pmodeInit` in
    every branch except `pmodeInit`, which `continue`s; that reset is
    inlined into each branch here. -/
def pstep (channelID : Str) (σ : PState) (i : Nat) (r : Char) : PState :=
  if r = '<' then
    if σ.mode = .pmodeInit then { σ with mode := .pmodeOpen, start := i }
    else { σ with buffer := [], mode := .pmodeInit }
  else if r = '>' then
    match σ.mode with
    | .pmodeInit => σ
    | .pmodeUser =>
      if σ.buffer.length < 2 then
        { σ with tmp := [], buffer := [], mode := .pmodeInit }
      else
        { σ with mentions := σ.mentions ++ [⟨.user, σ.buffer, []⟩],
                 locations := σ.locations ++ [(σ.start, i)],
                 tmp := [], buffer := [], mode := .pmodeInit }
    | .pmodeGroup =>
      if σ.buffer.length = 0 then
        { σ with tmp := [], buffer := [], mode := .pmodeInit }
      else
        { σ with mentions := σ.mentions ++ [⟨.group, σ.buffer, []⟩],
                 locations := σ.locations ++ [(σ.start, i)],
                 tmp := [], buffer := [], mode := .pmodeInit }
    | .pmodeHash =>
      if σ.buffer.length < 2 then
        { σ with tmp := [], buffer := [], mode := .pmodeInit }
      else
        { σ with mentions := σ.mentions ++ [⟨.channelRef, σ.buffer, []⟩],
                 locations := σ.locations ++ [(σ.start, i)],
                 tmp := [], buffer := [], mode := .pmodeInit }
    | .pmodePipe =>
      if σ.tmp.length < 2 then
        { σ with tmp := [], buffer := [], mode := .pmodeInit }
      else
        { σ with mentions := σ.mentions ++ [⟨.channelRef, σ.tmp, σ.buffer⟩],
                 locations := σ.locations ++ [(σ.start, i)],
                 tmp := [], buffer := [], mode := .pmodeInit }
    | .pmodeEx =>
      if σ.buffer = "here".data ∨ σ.buffer = "channel".data ∨
          σ.buffer = "everyone".data then
        { σ with mentions := σ.mentions ++ [⟨typeFromStr σ.buffer, channelID, []⟩],
                 locations := σ.locations ++ [(σ.start, i)],
                 tmp := [], buffer := [], mode := .pmodeInit }
      else
        { σ with tmp := [], buffer := [], mode := .pmodeInit }
    | .pmodeOpen => { σ with tmp := [], buffer := [], mode := .pmodeInit }
    | .pmodeAt => { σ with tmp := [], buffer := [], mode := .pmodeInit }
  else if r = '@' then
    if σ.mode = .pmodeOpen then { σ with mode := .pmodeAt }
    else if σ.mode ≠ .pmodeInit then { σ with buffer := [], mode := .pmodeInit }
    else σ
  else if r = '!' then
    if σ.mode = .pmodeOpen then { σ with mode := .pmodeEx }
    else if σ.mode ≠ .pmodeInit then { σ with buffer := [], mode := .pmodeInit }
    else σ
  else if r = '#' then
    if σ.mode = .pmodeOpen then { σ with mode := .pmodeHash } else σ
  else if r = 'U' ∨ r = 'W' then
    if σ.mode = .pmodeAt ∨ σ.mode = .pmodeUser ∨ σ.mode = .pmodeGroup ∨
        σ.mode = .pmodeEx ∨ σ.mode = .pmodeHash then
      let m := if σ.mode = .pmodeAt then Pmode.pmodeUser else σ.mode
      if σ.buffer.length ≥ 64 then { σ with buffer := [], mode := .pmodeInit }
      else { σ with mode := m, buffer := σ.buffer ++ [r] }
    else σ
  else if r = '^' then
    if σ.mode = .pmodeEx then
      if σ.buffer = "subteam".data then { σ with mode := .pmodeGroup, buffer := [] }
      else { σ with buffer := [], mode := .pmodeInit }
    else if σ.mode ≠ .pmodeInit then { σ with buffer := [], mode := .pmodeInit }
    else σ
  else if r = '|' then
    if σ.mode = .pmodeHash then
      if σ.buffer.length < 2 then { σ with buffer := [], mode := .pmodeInit }
      else { σ with tmp := σ.buffer, buffer := [], mode := .pmodePipe }
    else if σ.mode ≠ .pmodeInit then { σ with buffer := [], mode := .pmodeInit }
    else σ
  else
    if σ.mode = .pmodeInit then σ
    else if σ.mode = .pmodeAt ∨ σ.mode = .pmodeOpen then
      { σ with mode := .pmodeInit, buffer := [] }
    else
      if σ.buffer.length ≥ 64 then { σ with buffer := [], mode := .pmodeInit }
      else { σ with buffer := σ.buffer ++ [r] }

/-- The `for i, r := range message` loop of `Parse`. Go's `i` is the byte
    offset of each rune; here `i` counts runes — a monotone relabelling
    under which spans select exactly the same runes, since every recorded
    span starts at the one-byte rune `<` and ends at the one-byte rune `>`. -/
def prun (channelID : Str) (σ : PState) (i : Nat) : Str → PState
  | [] => σ
  | r :: rest => prun channelID (pstep channelID σ i r) (i + 1) rest

/-- `mparser.Parse`. -/
def Parse (message channelID : Str) : List Mention × List (Nat × Nat) :=
  if '<' ∉ message then ([], [])
  else
    let σ := prun channelID {} 0 message
    (σ.mentions, σ.locations)

/-- The splicing loop of `ParseAndSplice`: for each span,
    `b.Write(m[start:area[0]]); start = area[1] + 1`, then a final
    `b.Write(m[start:])`. -/
def splice (m : Str) (start : Nat) : List (Nat × Nat) → Str
  | [] => m.drop start
  | (a, b) :: rest => (m.take a).drop start ++ splice m (b + 1) rest

/-- Go slice expressions `m[x:y]` panic when `x > y` or `y > len(m)`; this
    variant of the splicing loop makes those panics explicit as `none`. -/
def spliceChecked (m : Str) (start : Nat) : List (Nat × Nat) → Option Str
  | [] => if start ≤ m.length then some (m.drop start) else none
  | (a, b) :: rest =>
    if start ≤ a ∧ a ≤ m.length then
      (spliceChecked m (b + 1) rest).map (fun s => (m.take a).drop start ++ s)
    else none

/-- `mparser.ParseAndSplice`. -/
def ParseAndSplice (message channelID : Str) : Str × List Mention :=
  let p := Parse message channelID
  if p.1 = [] then (message, [])
  else (splice message 0 p.2, p.1)

/-! ## Go `strings` helpers used by handler/message_actions.go -/

/-- ASCII case of `unicode.ToLower`, the case used by the registered
    triggers and message text in this code base. -/
def toLowerGo (c : Char) : Char :=
  if 'A' ≤ c ∧ c ≤ 'Z' then Char.ofNat (c.toNat + 32) else c

/-- `strings.ToLower` (ASCII case). -/
def toLowerStr (s : Str) : Str := s.map toLowerGo

/-- `strings.EqualFold` (ASCII simple case folding). -/
def eqFold (a b : Str) : Bool := toLowerStr a = toLowerStr b

/-- `strings.Contains(s, sub)`. -/
def containsStr (s sub : Str) : Bool :=
  (List.range (s.length + 1)).any (fun i => sub.isPrefixOf (s.drop i))

/-- `strings.HasPrefix(s, pre)`. -/
def isPre (pre s : Str) : Bool := pre.isPrefixOf s

/-- `unicode.IsSpace` on the whitespace actually reachable in one-byte and
    Latin-1 range (the higher Unicode space ranges are omitted). -/
def isSpaceGo (c : Char) : Bool :=
  c = ' ' ∨ c = '\t' ∨ c = '\n' ∨ c = Char.ofNat 11 ∨ c = Char.ofNat 12 ∨
    c = '\r' ∨ c = Char.ofNat 0x85 ∨ c = Char.ofNat 0xA0

/-- `strings.TrimSpace`. -/
def trimSpace (s : Str) : Str :=
  ((s.dropWhile isSpaceGo).reverse.dropWhile isSpaceGo).reverse

/-- `strings.Join(content, sep)`. -/
def joinSep (sep : Str) : List Str → Str
  | [] => []
  | [s] => s
  | s :: rest => s ++ sep ++ joinSep sep rest

/-! ## handler/messenger.go -/

/-- `handler.ChannelType`. -/
inductive ChannelType
  | channelUnknown | channelPublic | channelPrivate | channelDM
  | channelGroupDM | channelAppHome
  deriving DecidableEq, Repr

/-- `strToChan` from messenger.go. -/
def strToChan (s : Str) : ChannelType :=
  if s = "channel".data then .channelPublic
  else if s = "group".data then .channelPrivate
  else if s = "im".data then .channelDM
  else if s = "mpim".data then .channelGroupDM
  else if s = "app_home".data then .channelAppHome
  else .channelUnknown

/-- `slackevents.File`: an attached file; only its identity matters here. -/
structure SlackFile where
  id : Str
  deriving DecidableEq, Repr

/-- `handler.Message` from messenger.go; the defaults are Go zero values. -/
structure Message where
  channelID : Str := []
  channelType : ChannelType := .channelUnknown
  userID : Str := []
  threadTS : Str := []
  messageTS : Str := []
  allMentions : List Mention := []
  userMentions : List Mention := []
  text : Str := []
  botMentioned : Bool := false
  rawText : Str := []
  files : List SlackFile := []
  deriving DecidableEq, Repr

/-- `handler.NewMessage`. -/
def NewMessage (channelID channelType userID threadTS messageTS text : Str)
    (files : List SlackFile) : Message :=
  { channelID := channelID, channelType := strToChan channelType,
    userID := userID, threadTS := threadTS, messageTS := messageTS,
    rawText := text, files := files }

/-- `onlyOtherUserMMentions` from message_actions.go: the user mentions
    other than the bot itself, and whether the bot was mentioned. -/
def onlyOtherUserMMentions (selfID : Str) (mentions : List Mention) :
    List Mention × Bool :=
  if mentions = [] then ([], false)
  else
    mentions.foldl (fun acc m =>
      if m.type ≠ .user then acc
      else if m.id = selfID then (acc.1, true)
      else (acc.1 ++ [m], acc.2)) ([], false)

/-- `isDM` from message_actions.go. -/
def isDM (c : ChannelType) : Bool :=
  match c with
  | .channelPublic | .channelPrivate => false
  | .channelDM | .channelGroupDM | .channelAppHome => true
  | _ => false

/-! ## handler/message_actions.go -/

/-- The Go closures stored as handler actions, represented by the data that
    determines them: `HandleStatic` stores a `RespondMentions` of the joined
    content, `HandleStaticContains` a `Respond`, the reaction registrars a
    `reactionFactory(random, randFactor, reactions...)` closure, and
    `Handle`/`HandlePrefix`/`HandleDynamic` store arbitrary caller-supplied
    functions, represented by an opaque tag. -/
inductive RFn
  | respondMentions (msg : Str)
  | respondMsg (msg : Str)
  | reactFactory (random : Bool) (randFactor : Nat) (reactions : List Str)
  | userFn (tag : Nat)
  deriving DecidableEq, Repr

/-- `reactiveAction` from message_actions.go. `matchfn` is nil everywhere
    except in entries added by `HandleDynamic`, the only place it is called. -/
structure ReactiveAction where
  description : Str := []
  onlyWhenMentioned : Bool := false
  aliases : List Str := []
  fn : RFn
  matchfn : Option (Message → Bool) := none

/-- `MessageActions`: the four handler tables and the alias map. Go's
    `map[string]T` becomes an association list with unique keys; iteration
    order of a Go map is unspecified, so list order carries no meaning. -/
structure MessageActions where
  responses : List (Str × ReactiveAction) := []
  prefixResponses : List (Str × ReactiveAction) := []
  reactions : List (Str × ReactiveAction) := []
  dynamic : List ReactiveAction := []
  aliases : List (Str × Str) := []
  selfID : Str
  shadowMode : Bool := false

/-- `map[k] = v` on an association list: replace if present, else add. -/
def insertA (l : List (Str × ReactiveAction)) (k : Str) (v : ReactiveAction) :
    List (Str × ReactiveAction) :=
  if (List.lookup k l).isSome then
    l.map (fun kv => if kv.1 = k then (k, v) else kv)
  else l ++ [(k, v)]

/-- `handler.MessageAction`. -/
structure MessageAction where
  self : Str
  description : Str
  fn : RFn
  m : Message

/-- `MessageActions.Match` from message_actions.go. -/
def Match (ma : MessageActions) (message0 : Message) : List MessageAction :=
  let ps := ParseAndSplice message0.rawText message0.channelID
  let text := trimSpace ps.1
  let om := onlyOtherUserMMentions ma.selfID ps.2
  let message : Message :=
    { message0 with text := text, allMentions := ps.2,
                    userMentions := om.1, botMentioned := om.2 }
  let t0 := message.text
  let lt0 := toLowerStr t0
  let tl := match List.lookup lt0 ma.aliases with
    | some v => (v, v)
    | none => (t0, lt0)
  let t := tl.1
  let lt := tl.2
  let dm := isDM message.channelType
  let aa : List MessageAction := []
  let aa := if dm ∨ ¬ma.shadowMode then
      aa ++ ma.reactions.filterMap (fun kv =>
          if containsStr lt kv.1 && (!kv.2.onlyWhenMentioned || message.botMentioned)
          then some ⟨kv.1, kv.2.description, kv.2.fn, message⟩ else none)
        ++ ma.prefixResponses.filterMap (fun kv =>
          if isPre kv.1 lt
          then some ⟨kv.1, kv.2.description, kv.2.fn, message⟩ else none)
    else aa
  let aa := if dm ∨ message.botMentioned then
      aa ++ ma.responses.filterMap (fun kv =>
          if eqFold kv.1 t
          then some ⟨kv.1, kv.2.description, kv.2.fn, message⟩ else none)
    else aa
  aa ++ ma.dynamic.filterMap (fun ra =>
      match ra.matchfn with
      | some f => if f message then some ⟨[], ra.description, ra.fn, message⟩ else none
      | none => none)

/-- `slackevents.MessageEvent`: the envelope fields this package reads. -/
structure MessageEvent where
  user : Str
  subType : Str
  timeStamp : Str
  threadTimeStamp : Str := []
  text : Str := []
  channel : Str := []
  channelType : Str := []
  files : List SlackFile := []
  deriving DecidableEq, Repr

/-- `shouldDiscard` from message_actions.go. `now` stands for
    `time.Now().Unix()`; `strings.Split(ts, ".")[0]` is the prefix of the
    timestamp before the first dot. -/
def shouldDiscard (now : Int) (m : MessageEvent) : Str × Bool :=
  if m.subType.length > 0 then ("message has subtype".data, true)
  else
    let tss := m.timeStamp.takeWhile (· ≠ '.')
    match parseInt64 tss with
    | none => ("timestamp malformed".data, true)
    | some epoch =>
      if now - epoch > 30 then ("message older than 30 seconds".data, true)
      else ([], false)

/-- `MessageActions.Handler` from message_actions.go. `selfID` models
    `ctx.Self().ID`. Besides the Go return triple `(retry, drop, err)` the
    embedding returns the list of matched actions the loop invokes via
    `a.Do(ctx)`; per-action errors are only logged there, never returned. -/
def messageHandler (now : Int) (selfID : Str) (ma : MessageActions)
    (me : MessageEvent) : List MessageAction × Bool × Bool × Option Str :=
  if me.user = selfID then ([], false, false, none)
  else
    let sd := shouldDiscard now me
    if sd.2 then ([], false, true, some ("discarding message: ".data ++ sd.1))
    else
      let actions := Match ma (NewMessage me.channel me.channelType me.user
        me.threadTimeStamp me.timeStamp me.text me.files)
      (actions, false, false, none)

/-- `MessageActions.Handle`. Go `panic(...)` is modelled as `.error`; the
    model's `fn` is never nil, so the nil-check is not represented. -/
def Handle (ma : MessageActions) (trigger description : Str)
    (aliases : List Str) (fn : RFn) : Except Str MessageActions :=
  if trigger.length = 0 then .error ("trigger cannot be empty string".data)
  else if (List.lookup trigger ma.responses).isSome then
    .error ("trigger already exists".data)
  else
    let ma := aliases.foldl (fun ma a =>
      if (List.lookup a ma.aliases).isSome then ma
      else { ma with aliases := ma.aliases ++ [(a, trigger)] }) ma
    let ra : ReactiveAction := { description := description, aliases := aliases, fn := fn }
    .ok { ma with responses := insertA ma.responses trigger ra }

/-- `MessageActions.HandleStaticContains`. -/
def HandleStaticContains (ma : MessageActions) (contains : Str)
    (content : List Str) : Except Str MessageActions :=
  if contains.length = 0 then .error ("contains cannot be empty string".data)
  else if content.length = 0 then .error ("reactions variadic cannot be empty".data)
  else if (List.lookup contains ma.responses).isSome then
    .error ("trigger already exists".data)
  else
    let ra : ReactiveAction := { fn := .respondMsg (joinSep ['\n'] content) }
    .ok { ma with reactions := insertA ma.reactions contains ra }

/-- `MessageActions.HandleReaction`. -/
def HandleReaction (ma : MessageActions) (trigger : Str)
    (reactions : List Str) : Except Str MessageActions :=
  if trigger.length = 0 then .error ("trigger cannot be empty string".data)
  else if reactions.length = 0 then .error ("reactions variadic cannot be empty".data)
  else if (List.lookup trigger ma.responses).isSome then
    .error ("trigger already exists".data)
  else
    let ra : ReactiveAction := { fn := .reactFactory false 0 reactions }
    .ok { ma with reactions := insertA ma.reactions trigger ra }

/-- `MessageActions.HandleMentionedReaction`. -/
def HandleMentionedReaction (ma : MessageActions) (trigger : Str)
    (reactions : List Str) : Except Str MessageActions :=
  if trigger.length = 0 then .error ("trigger cannot be empty string".data)
  else if reactions.length = 0 then .error ("reactions variadic cannot be empty".data)
  else if (List.lookup trigger ma.responses).isSome then
    .error ("trigger already exists".data)
  else
    let ra : ReactiveAction := { onlyWhenMentioned := true, fn := .reactFactory false 0 reactions }
    .ok { ma with reactions := insertA ma.reactions trigger ra }

/-- `MessageActions.HandleReactionRand`. -/
def HandleReactionRand (ma : MessageActions) (trigger : Str)
    (reactions : List Str) : Except Str MessageActions :=
  if trigger.length = 0 then .error ("trigger cannot be empty string".data)
  else if reactions.length = 0 then .error ("reactions variadic cannot be empty".data)
  else if (List.lookup trigger ma.responses).isSome then
    .error ("trigger already exists".data)
  else
    let ra : ReactiveAction := { fn := .reactFactory true 0x2A reactions }
    .ok { ma with reactions := insertA ma.reactions trigger ra }

/-! ## handler team-join actions (TeamJoinActions.Handler) -/

/-- `10 * time.Minute` in nanoseconds, the unit of `time.Duration`. -/
def tenMinutes : Int := 600 * 1000000000

/-- A registered team-join action; `result` is the error the Go action
    function `a.fn(ctx, j, resp)` returns when invoked (`none` = success). -/
structure TeamJoinAction where
  name : Str
  result : Option Str
  deriving DecidableEq, Repr

/-- The `for _, a := range t.actions` loop of `TeamJoinActions.Handler`,
    carrying the `someWorked` flag. `age` models
    `time.Since(ctx.Meta().Time)` in nanoseconds. Besides the Go return
    triple `(retry, drop, err)` the embedding returns the names of the
    actions whose `fn` was invoked, in order. -/
def teamJoinLoop (shadow : Bool) (age : Int) (someWorked : Bool) :
    List TeamJoinAction → List Str × Bool × Bool × Option Str
  | [] => ([], false, false, none)
  | a :: rest =>
    if shadow then teamJoinLoop shadow age someWorked rest
    else
      match a.result with
      | some err =>
        if someWorked then ([a.name], false, false, none)
        else if age ≥ tenMinutes then
          ([a.name], false, true,
            some ("discarding failed join action due to age: ".data ++ err))
        else
          ([a.name], true, false,
            some ("failed to take join action: ".data ++ err))
      | none =>
        let r := teamJoinLoop shadow age true rest
        (a.name :: r.1, r.2)

/-- `TeamJoinActions.Handler` (the action-dispatch part; the synthesized
    welcome Message does not influence control flow). -/
def teamJoinHandler (shadow : Bool) (age : Int)
    (actions : List TeamJoinAction) : List Str × Bool × Bool × Option Str :=
  teamJoinLoop shadow age false actions

/-! ## internal/gateway — JSON envelope handling -/

/-- The slice of the `fastjson` value model that the gateway reads. -/
inductive JVal
  | str (s : Str)
  | num (n : Int)
  | boolean (b : Bool)
  | null
  | arr (elems : List JVal)
  | obj (fields : List (Str × JVal))

/-- `document.Exists(key)` / `document.Get(key)` on an object. -/
def jGet : JVal → Str → Option JVal
  | .obj fs, k => List.lookup k fs
  | _, _ => none

/-- `getJSONString` from handlers.go: the key must exist and hold a string. -/
def getJSONString (d : JVal) (k : Str) : Except Str Str :=
  match jGet d k with
  | none => .error ("failed to get field: key does not exist".data)
  | some (.str s) => .ok s
  | some _ => .error ("failed to get field: not a string".data)

/-- `getJSONInt64` from handlers.go: the key must exist and hold an integer. -/
def getJSONInt64 (d : JVal) (k : Str) : Except Str Int :=
  match jGet d k with
  | none => .error ("failed to get field: key does not exist".data)
  | some (.num n) => .ok n
  | some _ => .error ("failed to get field: not a number".data)

/-- `workqueue.Event` is a string type naming the target stream. -/
abbrev WqEvent := Str

def slackPublicMessage : WqEvent := "slack_message_public".data
def slackPrivateMessage : WqEvent := "slack_message_private".data
def slackTeamJoinStream : WqEvent := "slack_team_join".data
def slackChannelJoinStream : WqEvent := "slack_channel_join".data

/-- `requestValues` from handlers.go. -/
def requestValues (document : JVal) : Except Str (Str × Str × Int) :=
  match getJSONString document "type".data with
  | .error e => .error ("failed to get type field: ".data ++ e)
  | .ok eventType =>
    if eventType = "url_verification".data then .ok (eventType, [], 0)
    else
      match getJSONString document "event_id".data with
      | .error _ => .error ("failed to get event_id field".data)
      | .ok eventID =>
        match getJSONInt64 document "event_time".data with
        | .error e => .error ("failed to get event_time field: ".data ++ e)
        | .ok eventTimestamp => .ok (eventType, eventID, eventTimestamp)

/-- `wqEventType` from handlers.go: map the nested `event.type` (and
    `channel_type`) to the destination stream. -/
def wqEventType (event : JVal) : Except Str WqEvent :=
  match getJSONString event "type".data with
  | .error e => .error ("failed to get type field: ".data ++ e)
  | .ok eventType =>
    if eventType = "message".data then
      if (jGet event "channel_type".data).isNone then .ok slackPublicMessage
      else
        let ct := match getJSONString event "channel_type".data with
          | .ok s => s
          | .error _ => []
        if ct = "app_home".data then .ok slackPrivateMessage
        else if ct = "channel".data then .ok slackPublicMessage
        else if ct = "group".data then .ok slackPrivateMessage
        else if ct = "im".data then .ok slackPrivateMessage
        else if ct = "mpim".data then .ok slackPrivateMessage
        else .ok slackPublicMessage
    else if eventType = "team_join".data then .ok slackTeamJoinStream
    else if eventType = "member_joined_channel".data then .ok slackChannelJoinStream
    else .error ("unknown type".data)

/-- The HTTP-level inputs `handleSlackEvent` inspects after the middleware:
    the method, the parsed media type of `Content-Type` (`none` when
    `mime.ParseMediaType` fails), the `fastjson.ParseBytes` result on the
    body (`none` when unparseable), and the request id. -/
structure HttpReq where
  method : Str
  mediaType : Option Str
  body : Option JVal
  requestID : Str := []

/-- A record published to the work queue: stream, event time, event id,
    request id, and the marshalled `event` subtree. -/
structure Published where
  stream : WqEvent
  eventTs : Int
  eventID : Str
  requestID : Str
  payload : JVal

/-- `handleSlackEvent` from handlers.go, as the pair
    (status code explicitly written, records published). A `none` status
    means the handler fell through to the implicit `200 OK`; `publishOk`
    models the success of `s.q.Publish`, and the 500 path for a body read
    failure is not reachable in this model (the body is already read). -/
def handleSlackEvent (publishOk : Bool) (r : HttpReq) :
    Option Nat × List Published :=
  if r.method ≠ "POST".data then (some 405, [])
  else
    match r.mediaType with
    | none => (some 400, [])
    | some mt =>
      if mt ≠ "application/json".data then (some 415, [])
      else
        match r.body with
        | none => (some 422, [])
        | some document =>
          match requestValues document with
          | .error _ => (some 422, [])
          | .ok (eventType, eventID, eventTimestamp) =>
            if eventType = "url_verification".data then
              -- urlVerification: 422 when `challenge` is missing, else the
              -- challenge string is written with the implicit 200.
              match getJSONString document "challenge".data with
              | .error _ => (some 422, [])
              | .ok _ => (none, [])
            else
              match jGet document "event".data with
              | none => (some 422, [])
              | some event =>
                match wqEventType event with
                | .error _ => (some 422, [])
                | .ok et =>
                  match event with
                  | .obj _ =>
                    if publishOk then
                      (none, [⟨et, eventTimestamp, eventID, r.requestID, event⟩])
                    else (some 500, [])
                  | _ => (some 422, [])

/-! ## internal/gateway — slackSignatureMiddlewareFactory -/

/-- The middleware from gateway.go, as the pair (status codes written, in
    order, and whether `next` was invoked). `sigOk` is the outcome of
    `signing.Validate` on the raw body and headers; `parsed` is the
    `fastjson.ParseBytes` result. On a failed `team_id` extraction Go
    writes 400 but does not `return`; `getJSONString`'s Go counterpart
    returns the empty string alongside the error, so the comparison that
    follows sees `""`. -/
def slackSignatureMiddleware (sigOk : Bool) (token appID teamID : Str)
    (parsed : Option JVal) : List Nat × Bool :=
  if ¬sigOk then ([400], false)
  else
    match parsed with
    | none => ([422], false)
    | some document =>
      match getJSONString document "token".data with
      | .error _ => ([400], false)
      | .ok rToken =>
        if rToken ≠ token then ([400], false)
        else
          match getJSONString document "type".data with
          | .error _ => ([400], false)
          | .ok typeValue =>
            if typeValue = "url_verification".data then ([], true)
            else
              match getJSONString document "api_app_id".data with
              | .error _ => ([400], false)
              | .ok rAppID =>
                if rAppID ≠ appID then ([400], false)
                else
                  let tr := match getJSONString document "team_id".data with
                    | .error _ => ([400], ([] : Str))
                    | .ok s => ([], s)
                  if tr.2 ≠ teamID then (tr.1 ++ [400], false)
                  else (tr.1, true)

/-! ## Statement helpers and concrete instances -/

/-- The alias substitution step of `Match`: when the lower-cased trimmed
    text is a registered alias, the canonical trigger replaces it. -/
def aliasSwap (ma : MessageActions) (t0 : Str) : Str :=
  match List.lookup (toLowerStr t0) ma.aliases with
  | some v => v
  | none => t0

/-- Whether a registration call returned normally (Go: did not panic). -/
def regOk : Except Str MessageActions → Bool
  | .ok _ => true
  | .error _ => false

/-- A fixed stand-in digest function for closed instances; `Validate`'s
    control flow never inspects the digest bytes. -/
def cexMac : Str → Str → List Nat := fun _ _ => [171, 205]

/-- An envelope whose nested `event.type` maps to no known stream. -/
def c2doc : JVal :=
  .obj [("token".data, .str ("T".data)),
        ("type".data, .str ("event_callback".data)),
        ("event_id".data, .str ("Ev1".data)),
        ("event_time".data, .num 123),
        ("event".data, .obj [("type".data, .str ("reaction_added".data))])]

/-- A welcome batch whose second action fails after a success, with a third
    action still registered behind it. -/
def c3actions : List TeamJoinAction :=
  [⟨"a".data, none⟩, ⟨"b".data, some ("boom".data)⟩, ⟨"c".data, none⟩]

/-- A message event with a subtype whose timestamp is also stale. -/
def c4event : MessageEvent :=
  { user := "U1".data, subType := "bot_message".data,
    timeStamp := "100.000200".data }

/-- An empty registry for exercising the message handler. -/
def c4ma : MessageActions := { selfID := "UBOT".data }

/-- The exact-response entry registered for the C5 instance. -/
def c5ra : ReactiveAction := { fn := .userFn 0 }

/-- A registry with one exact trigger `hello` aliased by `hi`. -/
def c5ma : MessageActions :=
  { selfID := "UBOT".data,
    responses := [("hello".data, c5ra)],
    aliases := [("hi".data, "hello".data)] }

/-- A public-channel message mentioning the bot, whose cleaned text is the
    alias `Hi`. -/
def c5msg : Message :=
  { rawText := "<@UBOT> Hi".data, channelID := "C1".data,
    channelType := .channelPublic }

/-- An envelope carrying token, type and app id but no `team_id` field. -/
def c9doc : JVal :=
  .obj [("token".data, .str ("T".data)),
        ("type".data, .str ("event_callback".data)),
        ("api_app_id".data, .str ("A".data))]

/-! ## Proof scaffolding for the mention parser -/

/-- Invariant of the `Parse` loop after consuming `k` runes: the recorded
    spans are strictly increasing, non-overlapping, and end before `k`; and
    while a token attempt is live, its `start` precedes `k` and lies after
    every recorded span. -/
def PInv (σ : PState) (k : Nat) : Prop :=
  List.Chain' (fun p q : Nat × Nat => p.2 < q.1) σ.locations ∧
  (∀ p ∈ σ.locations, p.1 ≤ p.2 ∧ p.2 < k) ∧
  (σ.mode ≠ .pmodeInit → σ.start < k ∧ ∀ p ∈ σ.locations, p.2 < σ.start)

/-- Control-state equivalence: two parser states that behave identically on
    any further input, up to span positions. `tmp` only matters in
    `pmodePipe`, the one mode in which it is read. -/
def ctrlEq (σ τ : PState) : Prop :=
  σ.mode = τ.mode ∧ σ.buffer = τ.buffer ∧
    (σ.mode = .pmodePipe → σ.tmp = τ.tmp)

/-- Removal of the inclusive spans `locs` (absolute positions) from the
    segment `z` of the input that begins at absolute position `base`. -/
def spliceFrom (base : Nat) (z : Str) : List (Nat × Nat) → Str
  | [] => z
  | (a, b) :: rest => z.take (a - base) ++ spliceFrom (b + 1) (z.drop (b + 1 - base)) rest

/-! ## Helper lemmas -/

theorem parseTimestamp_ok_iff (now : Int) (t : Str) (ts : Int) :
    parseTimestamp now t = .ok ts ↔ parseInt64 t = some ts ∧ now - ts ≤ 300 := by
  unfold parseTimestamp
  split
  · rename_i h
    simp [h]
  · rename_i v h
    split
    · rename_i h3
      constructor
      · intro hh
        simp at hh
      · rintro ⟨he, hle⟩
        rw [h] at he
        cases he
        omega
    · rename_i h3
      constructor
      · intro hh
        injection hh with hv
        subst hv
        exact ⟨h, by omega⟩
      · rintro ⟨he, -⟩
        rw [h] at he
        cases he
        rfl

/-! ## C1 — signature validation window -/

/-- C1 (counterexample): with `now = 1000` and a correctly signed request
    whose timestamp is `2000` — 1000 seconds in the future — `Validate`
    succeeds, although the wall-clock time is not within 300 seconds of the
    timestamp. The claimed iff is therefore false as stated. -/
theorem C1_counterexample :
    Validate cexMac 1000 ("k".data)
      { timestamp := "2000".data,
        signature := genHMAC cexMac ("k".data) (signedPayload 2000 ("b".data)),
        body := "b".data } = .ok () ∧ ¬(|(1000 : Int) - 2000| ≤ 300) := by
  refine ⟨rfl, by decide⟩

/-- C1 (amended): `Validate(secret, {ts, signature, body})` succeeds iff
    both headers are non-empty, `ts` parses as a decimal 64-bit integer,
    `now - ts ≤ 300` — a one-sided staleness bound, so timestamps
    arbitrarily far in the future are accepted — and the signature equals
    `v0=` + lower-hex(HMAC-SHA256(secret, `v0:` + ts + `:` + body)). -/
theorem C1_theorem (mac : Str → Str → List Nat) (now : Int) (key : Str)
    (r : SigningRequest) :
    Validate mac now key r = .ok () ↔
      r.timestamp ≠ [] ∧ r.signature ≠ [] ∧
      ∃ ts, parseInt64 r.timestamp = some ts ∧ now - ts ≤ 300 ∧
        r.signature = genHMAC mac key (signedPayload ts r.body) := by
  unfold Validate
  by_cases h1 : r.timestamp.length = 0
  · rw [if_pos h1]
    simp only [List.length_eq_zero] at h1
    simp [h1]
  · by_cases h2 : r.signature.length = 0
    · rw [if_neg h1, if_pos h2]
      simp only [List.length_eq_zero] at h2
      simp [h2]
    · rw [if_neg h1, if_neg h2]
      simp only [List.length_eq_zero] at h1 h2
      split
      · rename_i e hpt
        constructor
        · intro h
          simp at h
        · rintro ⟨-, -, ts, hts, hle, -⟩
          have hok : parseTimestamp now r.timestamp = .ok ts :=
            (parseTimestamp_ok_iff now r.timestamp ts).mpr ⟨hts, hle⟩
          rw [hpt] at hok
          exact absurd hok (by simp)
      · rename_i ts hpt
        have hts := (parseTimestamp_ok_iff now r.timestamp ts).mp hpt
        by_cases h4 : r.signature = genHMAC mac key (signedPayload ts r.body)
        · rw [if_pos h4]
          constructor
          · intro _
            exact ⟨h1, h2, ts, hts.1, hts.2, h4⟩
          · intro _
            rfl
        · rw [if_neg h4]
          constructor
          · intro h
            simp at h
          · rintro ⟨-, -, ts', hts', -, hsig⟩
            rw [hts.1] at hts'
            cases hts'
            exact absurd hsig h4

/-! ## C2 — unknown nested event type -/

/-- C2 (counterexample): a signature-verified, well-formed envelope whose
    nested `event.type` is `reaction_added` is answered with status 422
    (`http.StatusUnprocessableEntity`), not 400 as claimed; nothing is
    published. -/
theorem C2_counterexample :
    handleSlackEvent true
      { method := "POST".data, mediaType := some ("application/json".data),
        body := some c2doc } = (some 422, []) ∧ (422 : Nat) ≠ 400 := by
  exact ⟨rfl, by decide⟩

/-- C2 (amended): for every verified POST whose nested `event.type` maps to
    no known stream, the ingress writes HTTP status 422 and publishes
    nothing. -/
theorem C2_theorem (publishOk : Bool) (r : HttpReq) (doc ev : JVal)
    (hm : r.method = "POST".data)
    (hmt : r.mediaType = some ("application/json".data))
    (hb : r.body = some doc)
    (hv : ∃ ty id ts, requestValues doc = .ok (ty, id, ts) ∧
      ty ≠ "url_verification".data)
    (he : jGet doc "event".data = some ev)
    (het : ∃ e, wqEventType ev = .error e) :
    handleSlackEvent publishOk r = (some 422, []) := by
  obtain ⟨ty, id, ts, hrv, hty⟩ := hv
  obtain ⟨e, hwq⟩ := het
  obtain ⟨m, mt, b, rid⟩ := r
  dsimp only at hm hmt hb
  subst hm hmt hb
  unfold handleSlackEvent
  dsimp only
  rw [if_neg (by simp)]
  rw [if_neg (by simp)]
  rw [hrv]
  dsimp only
  rw [if_neg hty, he]
  dsimp only
  rw [hwq]

/-- C2 (witness for the amended theorem): the concrete `reaction_added`
    envelope is answered 422 with no publish. -/
theorem C2_witness :
    handleSlackEvent false
      { method := "POST".data, mediaType := some ("application/json".data),
        body := some c2doc } = (some 422, []) := by
  exact C2_theorem false _ c2doc
    (.obj [("type".data, .str ("reaction_added".data))]) rfl rfl rfl
    ⟨"event_callback".data, "Ev1".data, 123, rfl, by decide⟩ rfl ⟨_, rfl⟩

/-! ## C3 — team-join batch error policy -/

/-- C3 (counterexample): with a successful first action and a failing
    second, the handler returns `(false, false, nil)` immediately: the
    third registered action `c` is never executed, contradicting "the
    remaining registered actions are still executed". -/
theorem C3_counterexample :
    teamJoinHandler false 0 c3actions = (["a".data, "b".data], false, false, none) ∧
      "c".data ∈ c3actions.map (fun a => a.name) ∧
      "c".data ∉ (teamJoinHandler false 0 c3actions).1 := by
  exact ⟨rfl, by decide, by decide⟩

/-- C3 (amended): in a non-shadow team-join batch whose first failure comes
    after only successes, the handler returns `(true, false, err)` when the
    event is younger than 10 minutes and `(false, true, err)` otherwise; if
    an earlier action had succeeded it logs and returns `(false, false,
    nil)` at once, executing none of the remaining registered actions. -/
theorem C3_theorem (age : Int) (pre post : List TeamJoinAction)
    (a : TeamJoinAction) (err : Str)
    (hpre : ∀ x ∈ pre, x.result = none) (ha : a.result = some err) :
    teamJoinHandler false age (pre ++ a :: post) =
      if pre.isEmpty then
        (if age ≥ tenMinutes then
          ([a.name], false, true,
            some ("discarding failed join action due to age: ".data ++ err))
        else
          ([a.name], true, false,
            some ("failed to take join action: ".data ++ err)))
      else (pre.map (fun x => x.name) ++ [a.name], false, false, none) := by
  have key : ∀ (l : List TeamJoinAction) (sw : Bool), (∀ x ∈ l, x.result = none) →
      teamJoinLoop false age sw (l ++ a :: post) =
        ((l.map (fun x => x.name)) ++
          (teamJoinLoop false age (sw || !l.isEmpty) (a :: post)).1,
         (teamJoinLoop false age (sw || !l.isEmpty) (a :: post)).2) := by
    intro l
    induction l with
    | nil =>
      intro sw _
      simp
    | cons x xs ih =>
      intro sw hall
      have hx : x.result = none := hall x (by simp)
      have hxs : ∀ y ∈ xs, y.result = none := fun y hy => hall y (by simp [hy])
      have hstep : teamJoinLoop false age sw ((x :: xs) ++ a :: post) =
          (x.name :: (teamJoinLoop false age true (xs ++ a :: post)).1,
           (teamJoinLoop false age true (xs ++ a :: post)).2) := by
        simp [teamJoinLoop, hx]
      rw [hstep, ih true hxs]
      simp
  unfold teamJoinHandler
  rw [key pre false hpre]
  by_cases hp : pre = []
  · subst hp
    simp only [List.isEmpty_nil, List.map_nil, List.nil_append, Bool.not_true,
      Bool.or_false, if_true]
    by_cases hage : age ≥ tenMinutes
    · simp [teamJoinLoop, ha, hage]
    · simp [teamJoinLoop, ha, hage]
  · have hpe : pre.isEmpty = false := by
      cases pre
      · exact absurd rfl hp
      · rfl
    rw [hpe]
    simp only [Bool.not_false, Bool.or_true, if_neg hp]
    simp [teamJoinLoop, ha]

/-- C3 (witness for the amended theorem): a concrete two-action batch whose
    second action fails after a success. -/
theorem C3_witness :
    teamJoinHandler false 0 ([⟨"a".data, none⟩] ++ ⟨"b".data, some ("x".data)⟩ :: []) =
      (["a".data, "b".data], false, false, none) := by
  have h := C3_theorem 0 [⟨"a".data, none⟩] [] ⟨"b".data, some ("x".data)⟩ ("x".data)
    (by decide) rfl
  simpa using h

/-! ## C4 — 30-second message age filter -/

/-- C4 (counterexample): a non-bot message whose timestamp is 900 seconds
    stale but which carries a subtype is dropped with reason
    "message has subtype", not "message older than 30 seconds" as claimed. -/
theorem C4_counterexample :
    messageHandler 1000 ("UBOT".data) c4ma c4event =
      ([], false, true, some ("discarding message: message has subtype".data)) ∧
      (1000 : Int) - 100 > 30 ∧ c4event.user ≠ "UBOT".data := by
  exact ⟨rfl, by decide, by decide⟩

/-- C4 (amended): for every delivered message event not from the bot, with
    no subtype, whose timestamp (integer part) is more than 30 seconds
    before now, the handler acks-and-drops with reason "message older than
    30 seconds" and invokes no registered action. -/
theorem C4_theorem (now : Int) (selfID : Str) (ma : MessageActions)
    (me : MessageEvent) (ep : Int)
    (hu : me.user ≠ selfID) (hsub : me.subType = [])
    (hp : parseInt64 (me.timeStamp.takeWhile (fun c => c ≠ '.')) = some ep)
    (hage : now - ep > 30) :
    messageHandler now selfID ma me =
      ([], false, true,
        some ("discarding message: message older than 30 seconds".data)) := by
  unfold messageHandler shouldDiscard
  rw [if_neg hu, hsub]
  simp only [List.length_nil, lt_irrefl, if_neg (by omega : ¬(0 : Nat) > 0)]
  rw [hp]
  simp [hage]

/-- C4 (witness for the amended theorem): a concrete stale, subtype-free
    message event. -/
theorem C4_witness :
    messageHandler 1000 ("UBOT".data) c4ma
      { user := "U1".data, subType := [], timeStamp := "100.000200".data } =
      ([], false, true,
        some ("discarding message: message older than 30 seconds".data)) := by
  exact C4_theorem 1000 ("UBOT".data) c4ma
    { user := "U1".data, subType := [], timeStamp := "100.000200".data } 100
    (by decide) rfl (by decide) (by decide)

/-! ## C8 — heartbeat monitor warns before bailing -/

theorem monitor_bail_aux (warnT failT : Int) :
    ∀ (durs : List Int) (w : Bool) (i : Nat) (d : Int) (e : Bool),
      (monitorTrace warnT failT w durs)[i]? = some (d, e, true) →
      d ≥ failT ∧ d ≥ warnT ∧
        (w = true ∨ ∃ j, j < i ∧ ∃ dw,
          (monitorTrace warnT failT w durs)[j]? = some (dw, true, false) ∧
          dw ≥ warnT) := by
  intro durs
  induction durs with
  | nil =>
    intro w i d e h
    simp [monitorTrace] at h
  | cons d0 ds ih =>
    intro w i d e h
    by_cases hc1 : d0 < warnT
    · have ht : monitorTrace warnT failT w (d0 :: ds) =
          (d0, false, false) :: monitorTrace warnT failT false ds := by
        simp [monitorTrace, monitorTick, hc1]
      rw [ht] at h
      cases i with
      | zero => simp at h
      | succ j =>
        rw [List.getElem?_cons_succ] at h
        obtain ⟨h1, h2, h3 | h3⟩ := ih false j d e h
        · cases h3
        · obtain ⟨j0, hj0, dw, hdw, hge⟩ := h3
          exact ⟨h1, h2, Or.inr ⟨j0 + 1, by omega, dw, by
            rw [ht, List.getElem?_cons_succ]; exact hdw, hge⟩⟩
    · have hge0 : d0 ≥ warnT := by omega
      by_cases hw : w = false
      · subst hw
        have ht : monitorTrace warnT failT false (d0 :: ds) =
            (d0, true, false) :: monitorTrace warnT failT true ds := by
          simp [monitorTrace, monitorTick, hc1, hge0]
        rw [ht] at h
        cases i with
        | zero => simp at h
        | succ j =>
          rw [List.getElem?_cons_succ] at h
          obtain ⟨h1, h2, h3 | h3⟩ := ih true j d e h
          · exact ⟨h1, h2, Or.inr ⟨0, by omega, d0, by
              rw [ht, List.getElem?_cons_zero], hge0⟩⟩
          · obtain ⟨j0, hj0, dw, hdw, hgew⟩ := h3
            exact ⟨h1, h2, Or.inr ⟨j0 + 1, by omega, dw, by
              rw [ht, List.getElem?_cons_succ]; exact hdw, hgew⟩⟩
      · have hwt : w = true := by
          cases w
          · exact absurd rfl hw
          · rfl
        subst hwt
        by_cases hc3 : d0 ≥ failT
        · have ht : monitorTrace warnT failT true (d0 :: ds) =
              [(d0, false, true)] := by
            simp [monitorTrace, monitorTick, hc1, hc3]
          rw [ht] at h
          cases i with
          | zero =>
            rw [List.getElem?_cons_zero] at h
            simp at h
            obtain ⟨rfl, -⟩ := h
            exact ⟨hc3, hge0, Or.inl rfl⟩
          | succ j => simp at h
        · have ht : monitorTrace warnT failT true (d0 :: ds) =
              (d0, false, false) :: monitorTrace warnT failT true ds := by
            simp [monitorTrace, monitorTick, hc1, hc3]
          rw [ht] at h
          cases i with
          | zero => simp at h
          | succ j =>
            rw [List.getElem?_cons_succ] at h
            obtain ⟨h1, h2, h3 | h3⟩ := ih true j d e h
            · exact ⟨h1, h2, Or.inl h3⟩
            · obtain ⟨j0, hj0, dw, hdw, hgew⟩ := h3
              exact ⟨h1, h2, Or.inr ⟨j0 + 1, by omega, dw, by
                rw [ht, List.getElem?_cons_succ]; exact hdw, hgew⟩⟩

/-- C8: starting from a cleared warn flag, every bailout of the monitor
    loop happens at a sample whose age is at least the fail threshold, and
    a staleness warning was emitted at a strictly earlier sample whose age
    was at least the warn threshold (that warning is what set the warn
    flag). -/
theorem C8_theorem (warnT failT : Int) (durs : List Int) (i : Nat) (d : Int)
    (e : Bool)
    (h : (monitorTrace warnT failT false durs)[i]? = some (d, e, true)) :
    d ≥ failT ∧ ∃ j, j < i ∧ ∃ dw,
      (monitorTrace warnT failT false durs)[j]? = some (dw, true, false) ∧
      dw ≥ warnT := by
  obtain ⟨h1, -, h3 | h3⟩ := monitor_bail_aux warnT failT durs false i d e h
  · cases h3
  · exact ⟨h1, h3⟩

/-- C8 (witness): with warn = 3, fail = 10 and samples 5 then 12, the
    monitor warns on the first tick and bails on the second. -/
theorem C8_witness :
    (monitorTrace 3 10 false [5, 12])[1]? = some (12, false, true) ∧
      ((12 : Int) ≥ 10 ∧ ∃ j, j < 1 ∧ ∃ dw,
        (monitorTrace 3 10 false [5, 12])[j]? = some (dw, true, false) ∧
        dw ≥ 3) :=
  ⟨by decide, C8_theorem 3 10 [5, 12] 1 12 false (by decide)⟩

/-! ## C9 — missing team_id in the signature middleware -/

/-- C9: for a signature-verified, token- and app-matched, non-verification
    envelope whose `team_id` extraction fails, the middleware writes a 400
    status but only the subsequent team-id comparison stops the request: a
    configured empty team id forwards the request to the event handler
    despite the 400 already written, while any non-empty team id rejects it
    (writing 400 a second time). -/
theorem C9_theorem (token appID teamID : Str) (doc : JVal)
    (htok : getJSONString doc ("token".data) = .ok token)
    (hty : ∃ tv, getJSONString doc ("type".data) = .ok tv ∧
      tv ≠ "url_verification".data)
    (happ : getJSONString doc ("api_app_id".data) = .ok appID)
    (hteam : ∃ e, getJSONString doc ("team_id".data) = .error e) :
    slackSignatureMiddleware true token appID teamID (some doc) =
      if teamID = [] then ([400], true) else ([400, 400], false) := by
  obtain ⟨tv, htv, htvne⟩ := hty
  obtain ⟨e, he⟩ := hteam
  unfold slackSignatureMiddleware
  rw [if_neg (by simp)]
  dsimp only
  rw [htok]
  dsimp only
  rw [if_neg (by simp), htv]
  dsimp only
  rw [if_neg htvne, happ]
  dsimp only
  rw [if_neg (by simp), he]
  dsimp only
  by_cases hT : teamID = []
  · subst hT
    simp
  · rw [if_pos (fun hh => hT hh.symm), if_neg hT]
    rfl

/-- C9 (witness): an envelope with no `team_id` field and an empty
    configured team id is forwarded even though a 400 was written. -/
theorem C9_witness :
    slackSignatureMiddleware true ("T".data) ("A".data) [] (some c9doc) =
      ([400], true) := by
  have h := C9_theorem ("T".data) ("A".data) [] c9doc rfl
    ⟨"event_callback".data, rfl, by decide⟩ rfl ⟨_, rfl⟩
  simpa using h

/-! ## C10 — duplicate-trigger guard of the reaction registrars -/

theorem lookup_map_replace (k : Str) (v : ReactiveAction)
    (l : List (Str × ReactiveAction)) :
    List.lookup k (l.map (fun kv => if kv.1 = k then (k, v) else kv)) =
      if (List.lookup k l).isSome then some v else none := by
  induction l with
  | nil => simp
  | cons x xs ih =>
    obtain ⟨a, b⟩ := x
    by_cases ha : a = k
    · subst ha
      rw [List.map_cons]
      have hhead : (if ((a, b) : Str × ReactiveAction).1 = a then (a, v) else (a, b)) =
          (a, v) := by simp
      rw [hhead]
      simp [List.lookup]
    · have hne : (k == a) = false := beq_eq_false_iff_ne.mpr (Ne.symm ha)
      rw [List.map_cons]
      have hhead : (if ((a, b) : Str × ReactiveAction).1 = k then (k, v) else (a, b)) =
          (a, b) := by simp [ha]
      rw [hhead]
      simp only [List.lookup, hne, ih]

theorem lookup_append_self (k : Str) (v : ReactiveAction)
    (l : List (Str × ReactiveAction)) (h : List.lookup k l = none) :
    List.lookup k (l ++ [(k, v)]) = some v := by
  induction l with
  | nil => simp [List.lookup]
  | cons x xs ih =>
    obtain ⟨a, b⟩ := x
    by_cases ha : k = a
    · subst ha
      simp [List.lookup] at h
    · have hne : (k == a) = false := beq_eq_false_iff_ne.mpr ha
      simp only [List.lookup, hne] at h
      rw [List.cons_append]
      simp only [List.lookup, hne]
      exact ih h

theorem lookup_insertA_self (l : List (Str × ReactiveAction)) (k : Str)
    (v : ReactiveAction) : List.lookup k (insertA l k v) = some v := by
  unfold insertA
  by_cases h : (List.lookup k l).isSome
  · rw [if_pos h, lookup_map_replace, if_pos h]
  · rw [if_neg h]
    refine lookup_append_self k v l ?_
    cases hh : List.lookup k l
    · rfl
    · rw [hh] at h
      exact absurd rfl h

/-- C10: with a non-empty trigger and non-empty content, each
    contains/reaction registrar returns normally exactly when the trigger
    is absent from the exact-response table (the guard never consults the
    reactions table), and a second reaction registration under the same
    trigger also returns normally, silently replacing the first entry. -/
theorem C10_theorem (ma : MessageActions) (t : Str) (c₁ c₂ : List Str)
    (ht : t ≠ []) (hc₁ : c₁ ≠ []) (hc₂ : c₂ ≠ []) :
    (regOk (HandleStaticContains ma t c₁) = (List.lookup t ma.responses).isNone ∧
     regOk (HandleReaction ma t c₁) = (List.lookup t ma.responses).isNone ∧
     regOk (HandleMentionedReaction ma t c₁) = (List.lookup t ma.responses).isNone ∧
     regOk (HandleReactionRand ma t c₁) = (List.lookup t ma.responses).isNone) ∧
    (∀ ma₁, HandleReaction ma t c₁ = .ok ma₁ →
      ∃ ma₂, HandleReaction ma₁ t c₂ = .ok ma₂ ∧
        List.lookup t ma₂.reactions = some { fn := .reactFactory false 0 c₂ } ∧
        ma₂.responses = ma.responses) := by
  have hlt : ¬(t.length = 0) := by simpa [List.length_eq_zero] using ht
  have hl1 : ¬(c₁.length = 0) := by simpa [List.length_eq_zero] using hc₁
  have hl2 : ¬(c₂.length = 0) := by simpa [List.length_eq_zero] using hc₂
  constructor
  · refine ⟨?_, ?_, ?_, ?_⟩
    · unfold HandleStaticContains
      rw [if_neg hlt, if_neg hl1]
      cases hh : List.lookup t ma.responses
      · simp [regOk]
      · simp [regOk]
    · unfold HandleReaction
      rw [if_neg hlt, if_neg hl1]
      cases hh : List.lookup t ma.responses
      · simp [regOk]
      · simp [regOk]
    · unfold HandleMentionedReaction
      rw [if_neg hlt, if_neg hl1]
      cases hh : List.lookup t ma.responses
      · simp [regOk]
      · simp [regOk]
    · unfold HandleReactionRand
      rw [if_neg hlt, if_neg hl1]
      cases hh : List.lookup t ma.responses
      · simp [regOk]
      · simp [regOk]
  · intro ma₁ h₁
    unfold HandleReaction at h₁ ⊢
    rw [if_neg hlt, if_neg hl1] at h₁
    cases hh : List.lookup t ma.responses
    · rw [hh] at h₁
      simp only [Option.isSome_none, Bool.false_eq_true, if_false] at h₁
      injection h₁ with h₁
      subst h₁
      rw [if_neg hlt, if_neg hl2]
      dsimp only
      rw [hh]
      simp only [Option.isSome_none, Bool.false_eq_true, if_false]
      exact ⟨_, rfl, lookup_insertA_self _ _ _, rfl⟩
    · rw [hh] at h₁
      simp [regOk] at h₁

/-- C10 (witness): registering the reaction trigger `go` twice on a fresh
    registry succeeds, with the second registration's entry surviving. -/
theorem C10_witness :
    (regOk (HandleStaticContains { selfID := "B".data } ("go".data) ["x".data]) =
      (List.lookup ("go".data)
        (MessageActions.responses { selfID := "B".data })).isNone ∧
     regOk (HandleReaction { selfID := "B".data } ("go".data) ["x".data]) =
      (List.lookup ("go".data)
        (MessageActions.responses { selfID := "B".data })).isNone ∧
     regOk (HandleMentionedReaction { selfID := "B".data } ("go".data) ["x".data]) =
      (List.lookup ("go".data)
        (MessageActions.responses { selfID := "B".data })).isNone ∧
     regOk (HandleReactionRand { selfID := "B".data } ("go".data) ["x".data]) =
      (List.lookup ("go".data)
        (MessageActions.responses { selfID := "B".data })).isNone) ∧
    (∀ ma₁, HandleReaction { selfID := "B".data } ("go".data) ["x".data] = .ok ma₁ →
      ∃ ma₂, HandleReaction ma₁ ("go".data) ["y".data] = .ok ma₂ ∧
        List.lookup ("go".data) ma₂.reactions =
          some { fn := .reactFactory false 0 ["y".data] } ∧
        ma₂.responses = MessageActions.responses { selfID := "B".data }) :=
  C10_theorem { selfID := "B".data } ("go".data) ["x".data] ["y".data]
    (by decide) (by decide) (by decide)

/-! ## C5 — exact-trigger matching -/

/-- C5: over a registry whose other tables are empty, a registered exact
    handler for trigger `k` is in the result of `Match` iff the channel is
    DM-like or the bot was mentioned, and `k` equals — case-insensitively —
    the cleaned, trimmed text after alias substitution. -/
theorem C5_theorem (ma : MessageActions) (msg : Message) (k : Str)
    (ra : ReactiveAction)
    (hre : ma.reactions = []) (hpr : ma.prefixResponses = [])
    (hdy : ma.dynamic = []) (hk : (k, ra) ∈ ma.responses) :
    ((∃ a ∈ Match ma msg, a.self = k) ↔
      (isDM msg.channelType ∨
        (onlyOtherUserMMentions ma.selfID
          (ParseAndSplice msg.rawText msg.channelID).2).2) ∧
      eqFold k (aliasSwap ma
        (trimSpace (ParseAndSplice msg.rawText msg.channelID).1))) := by
  unfold Match aliasSwap
  rw [hre, hpr, hdy]
  dsimp only
  rcases halias : List.lookup
      (toLowerStr (trimSpace (ParseAndSplice msg.rawText msg.channelID).1))
      ma.aliases with _ | v <;>
  · dsimp only
    by_cases hgate : (isDM msg.channelType ∨
        (onlyOtherUserMMentions ma.selfID
          (ParseAndSplice msg.rawText msg.channelID).2).2)
    · rw [if_pos hgate]
      simp only [ite_self, List.filterMap_nil, List.append_nil, List.nil_append,
        List.mem_filterMap, List.mem_append]
      constructor
      · rintro ⟨a, ⟨⟨kk, rra⟩, hmem, hsome⟩, hself⟩
        split at hsome
        · rename_i hf
          injection hsome with hsome
          subst hsome
          dsimp only at hself
          rw [hself] at hf
          exact ⟨hgate, hf⟩
        · simp at hsome
      · rintro ⟨-, hfold⟩
        refine ⟨_, ⟨(k, ra), hk, if_pos hfold⟩, ?_⟩
        rfl
    · rw [if_neg hgate]
      simp only [ite_self, List.filterMap_nil, List.append_nil, List.nil_append,
        List.not_mem_nil]
      constructor
      · rintro ⟨a, ha, -⟩
        exact absurd ha (by simp)
      · rintro ⟨hg, -⟩
        exact absurd hg hgate

/-- C5 (witness): with exact trigger `hello` aliased by `hi`, the message
    `<@UBOT> Hi` in a public channel (bot mentioned, alias substituted)
    matches the handler. -/
theorem C5_witness : ∃ a ∈ Match c5ma c5msg, a.self = "hello".data := by
  exact (C5_theorem c5ma c5msg ("hello".data) c5ra rfl rfl rfl
    (List.mem_cons_self _ _)).mpr (by decide)

/-! ## C7 — span invariants of the mention parser -/

theorem PInv_emit (σ : PState) (i : Nat) (m : Mention)
    (h : PInv σ i) (hmode : σ.mode ≠ .pmodeInit) :
    PInv { σ with mentions := σ.mentions ++ [m],
                  locations := σ.locations ++ [(σ.start, i)],
                  tmp := [], buffer := [], mode := .pmodeInit } (i + 1) := by
  obtain ⟨hc, hb, hm⟩ := h
  obtain ⟨hst, hlt⟩ := hm hmode
  refine ⟨?_, ?_, ?_⟩
  · rw [List.chain'_append]
    refine ⟨hc, List.chain'_singleton _, ?_⟩
    intro x hx y hy
    simp only [List.head?_cons, Option.mem_def, Option.some.injEq] at hy
    subst hy
    exact hlt x (List.mem_of_mem_getLast? hx)
  · intro p hp
    rcases List.mem_append.mp hp with hp | hp
    · exact ⟨(hb p hp).1, Nat.lt_succ_of_lt (hb p hp).2⟩
    · simp only [List.mem_singleton] at hp
      subst hp
      exact ⟨Nat.le_of_lt hst, Nat.lt_succ_self i⟩
  · intro hcon
    exact absurd rfl hcon

theorem pstep_inv (c : Str) (σ : PState) (i : Nat) (r : Char)
    (h : PInv σ i) : PInv (pstep c σ i r) (i + 1) := by
  have hkeep : PInv σ (i + 1) :=
    ⟨h.1, fun p hp => ⟨(h.2.1 p hp).1, Nat.lt_succ_of_lt (h.2.1 p hp).2⟩,
      fun hm => ⟨Nat.lt_succ_of_lt (h.2.2 hm).1, (h.2.2 hm).2⟩⟩
  obtain ⟨hc, hb, hm⟩ := h
  have hToInit : ∀ (buf tmp : Str),
      PInv { σ with buffer := buf, tmp := tmp, mode := .pmodeInit } (i + 1) :=
    fun buf tmp =>
      ⟨hc, fun p hp => ⟨(hb p hp).1, Nat.lt_succ_of_lt (hb p hp).2⟩,
        fun hcon => absurd rfl hcon⟩
  have hStay : ∀ (m' : Pmode) (b' t' : Str), m' ≠ .pmodeInit →
      σ.mode ≠ .pmodeInit →
      PInv { σ with mode := m', buffer := b', tmp := t' } (i + 1) :=
    fun m' b' t' _ hσm =>
      ⟨hc, fun p hp => ⟨(hb p hp).1, Nat.lt_succ_of_lt (hb p hp).2⟩,
        fun _ => ⟨Nat.lt_succ_of_lt (hm hσm).1, (hm hσm).2⟩⟩
  have hOpen : PInv { σ with mode := .pmodeOpen, start := i } (i + 1) :=
    ⟨hc, fun p hp => ⟨(hb p hp).1, Nat.lt_succ_of_lt (hb p hp).2⟩,
      fun _ => ⟨Nat.lt_succ_self i, fun p hp => (hb p hp).2⟩⟩
  have hPI : PInv σ i := ⟨hc, hb, hm⟩
  unfold pstep
  by_cases h1 : r = '<'
  · rw [if_pos h1]
    by_cases h2 : σ.mode = .pmodeInit
    · rw [if_pos h2]
      exact hOpen
    · rw [if_neg h2]
      exact hToInit [] σ.tmp
  · rw [if_neg h1]
    by_cases h2 : r = '>'
    · rw [if_pos h2]
      cases hM : σ.mode
      · exact hkeep
      · exact hToInit [] []
      · exact hToInit [] []
      · dsimp only
        split
        · exact PInv_emit σ i _ hPI (by simp [hM])
        · exact hToInit [] []
      · dsimp only
        split
        · exact hToInit [] []
        · exact PInv_emit σ i _ hPI (by simp [hM])
      · dsimp only
        split
        · exact hToInit [] []
        · exact PInv_emit σ i _ hPI (by simp [hM])
      · dsimp only
        split
        · exact hToInit [] []
        · exact PInv_emit σ i _ hPI (by simp [hM])
      · dsimp only
        split
        · exact hToInit [] []
        · exact PInv_emit σ i _ hPI (by simp [hM])
    · rw [if_neg h2]
      by_cases h3 : r = '@'
      · rw [if_pos h3]
        by_cases hOp : σ.mode = .pmodeOpen
        · rw [if_pos hOp]
          exact hStay .pmodeAt σ.buffer σ.tmp (by simp) (by simp [hOp])
        · rw [if_neg hOp]
          by_cases hI : σ.mode = .pmodeInit
          · rw [if_neg (by simp [hI])]
            exact hkeep
          · rw [if_pos hI]
            exact hToInit [] σ.tmp
      · rw [if_neg h3]
        by_cases h4 : r = '!'
        · rw [if_pos h4]
          by_cases hOp : σ.mode = .pmodeOpen
          · rw [if_pos hOp]
            exact hStay .pmodeEx σ.buffer σ.tmp (by simp) (by simp [hOp])
          · rw [if_neg hOp]
            by_cases hI : σ.mode = .pmodeInit
            · rw [if_neg (by simp [hI])]
              exact hkeep
            · rw [if_pos hI]
              exact hToInit [] σ.tmp
        · rw [if_neg h4]
          by_cases h5 : r = '#'
          · rw [if_pos h5]
            by_cases hOp : σ.mode = .pmodeOpen
            · rw [if_pos hOp]
              exact hStay .pmodeHash σ.buffer σ.tmp (by simp) (by simp [hOp])
            · rw [if_neg hOp]
              exact hkeep
          · rw [if_neg h5]
            by_cases h6 : r = 'U' ∨ r = 'W'
            · rw [if_pos h6]
              by_cases hMode : σ.mode = .pmodeAt ∨ σ.mode = .pmodeUser ∨
                  σ.mode = .pmodeGroup ∨ σ.mode = .pmodeEx ∨ σ.mode = .pmodeHash
              · rw [if_pos hMode]
                have hNI : σ.mode ≠ .pmodeInit := by
                  rcases hMode with h | h | h | h | h <;> simp [h]
                dsimp only
                by_cases hLen : σ.buffer.length ≥ 64
                · rw [if_pos hLen]
                  exact hToInit [] σ.tmp
                · rw [if_neg hLen]
                  refine hStay _ (σ.buffer ++ [r]) σ.tmp ?_ hNI
                  by_cases hAt : σ.mode = .pmodeAt
                  · rw [if_pos hAt]
                    simp
                  · rw [if_neg hAt]
                    exact hNI
              · rw [if_neg hMode]
                exact hkeep
            · rw [if_neg h6]
              by_cases h7 : r = '^'
              · rw [if_pos h7]
                by_cases hEx : σ.mode = .pmodeEx
                · rw [if_pos hEx]
                  by_cases hSub : σ.buffer = "subteam".data
                  · rw [if_pos hSub]
                    exact hStay .pmodeGroup [] σ.tmp (by simp) (by simp [hEx])
                  · rw [if_neg hSub]
                    exact hToInit [] σ.tmp
                · rw [if_neg hEx]
                  by_cases hI : σ.mode = .pmodeInit
                  · rw [if_neg (by simp [hI])]
                    exact hkeep
                  · rw [if_pos hI]
                    exact hToInit [] σ.tmp
              · rw [if_neg h7]
                by_cases h8 : r = '|'
                · rw [if_pos h8]
                  by_cases hHash : σ.mode = .pmodeHash
                  · rw [if_pos hHash]
                    by_cases hLen : σ.buffer.length < 2
                    · rw [if_pos hLen]
                      exact hToInit [] σ.tmp
                    · rw [if_neg hLen]
                      exact hStay .pmodePipe [] σ.buffer (by simp) (by simp [hHash])
                  · rw [if_neg hHash]
                    by_cases hI : σ.mode = .pmodeInit
                    · rw [if_neg (by simp [hI])]
                      exact hkeep
                    · rw [if_pos hI]
                      exact hToInit [] σ.tmp
                · rw [if_neg h8]
                  by_cases hI : σ.mode = .pmodeInit
                  · rw [if_pos hI]
                    exact hkeep
                  · rw [if_neg hI]
                    by_cases hAO : σ.mode = .pmodeAt ∨ σ.mode = .pmodeOpen
                    · rw [if_pos hAO]
                      exact hToInit [] σ.tmp
                    · rw [if_neg hAO]
                      by_cases hLen : σ.buffer.length ≥ 64
                      · rw [if_pos hLen]
                        exact hToInit [] σ.tmp
                      · rw [if_neg hLen]
                        exact hStay σ.mode (σ.buffer ++ [r]) σ.tmp hI hI

theorem prun_inv (c : Str) :
    ∀ (z : Str) (σ : PState) (i : Nat), PInv σ i →
      PInv (prun c σ i z) (i + z.length) := by
  intro z
  induction z with
  | nil =>
    intro σ i h
    simpa [prun] using h
  | cons r rest ih =>
    intro σ i h
    have := ih (pstep c σ i r) (i + 1) (pstep_inv c σ i r h)
    have harith : i + 1 + rest.length = i + (r :: rest).length := by
      simp
      omega
    rw [prun, ← harith]
    exact this

theorem chain_head_lt (x : Nat × Nat) :
    ∀ (l : List (Nat × Nat)),
      List.Chain' (fun p q : Nat × Nat => p.2 < q.1) (x :: l) →
      (∀ p ∈ l, p.1 ≤ p.2) → ∀ y ∈ l, x.2 < y.1 := by
  intro l
  induction l generalizing x with
  | nil =>
    intro _ _ y hy
    exact absurd hy (List.not_mem_nil y)
  | cons z zs ih =>
    intro hch hb y hy
    have hxz : x.2 < z.1 := (List.chain'_cons.mp hch).1
    rcases List.mem_cons.mp hy with rfl | hy
    · exact hxz
    · have hz2 : x.2 < z.2 := lt_of_lt_of_le hxz (hb z (by simp))
      have := ih z (List.chain'_cons.mp hch).2 (fun p hp => hb p (by simp [hp])) y hy
      omega

theorem spliceChecked_eq_splice (m : Str) :
    ∀ (locs : List (Nat × Nat)) (start : Nat),
      List.Chain' (fun p q : Nat × Nat => p.2 < q.1) locs →
      (∀ p ∈ locs, p.1 ≤ p.2 ∧ p.2 < m.length) →
      (∀ p ∈ locs, start ≤ p.1) → start ≤ m.length →
      spliceChecked m start locs = some (splice m start locs) := by
  intro locs
  induction locs with
  | nil =>
    intro start _ _ _ hsl
    simp [spliceChecked, splice, hsl]
  | cons p rest ih =>
    intro start hch hb hs hsl
    obtain ⟨a, b⟩ := p
    have hab : a ≤ b ∧ b < m.length := hb (a, b) (by simp)
    have hsa : start ≤ a := hs (a, b) (by simp)
    have hrest : ∀ q ∈ rest, b + 1 ≤ q.1 := by
      intro q hq
      have := chain_head_lt (a, b) rest hch
        (fun q hq => (hb q (List.mem_cons_of_mem _ hq)).1) q hq
      omega
    rw [spliceChecked, splice]
    rw [if_pos ⟨hsa, by omega⟩]
    rw [ih (b + 1) (List.Chain'.tail hch) (fun q hq => hb q (List.mem_cons_of_mem _ hq)) hrest
      (by
        cases rest with
        | nil => omega
        | cons q qs =>
          have := hrest q (by simp)
          have := (hb q (by simp)).2
          omega)]
    rfl

/-- C7: the spans returned by `Parse` are strictly increasing,
    non-overlapping inclusive ranges within the input, so the slicing in
    `ParseAndSplice` never indexes out of range: the checked splice
    succeeds and equals the total one, on arbitrary input. -/
theorem C7_theorem (message channelID : Str) :
    List.Chain' (fun p q : Nat × Nat => p.2 < q.1) (Parse message channelID).2 ∧
    (∀ p ∈ (Parse message channelID).2, p.1 ≤ p.2 ∧ p.2 < message.length) ∧
    spliceChecked message 0 (Parse message channelID).2 =
      some (splice message 0 (Parse message channelID).2) := by
  unfold Parse
  by_cases hlt : '<' ∈ message
  · rw [if_neg (by simp [hlt])]
    dsimp only
    have h0 : PInv ({} : PState) 0 := by
      refine ⟨List.chain'_nil, ?_, ?_⟩
      · intro p hp
        exact absurd hp (List.not_mem_nil p)
      · intro hcon
        exact absurd rfl hcon
    have hinv := prun_inv channelID message {} 0 h0
    obtain ⟨hc, hb, -⟩ := hinv
    have hb' : ∀ p ∈ (prun channelID {} 0 message).locations,
        p.1 ≤ p.2 ∧ p.2 < message.length := by
      intro p hp
      have := hb p hp
      omega
    exact ⟨hc, hb', spliceChecked_eq_splice message _ 0 hc hb'
      (fun p _ => Nat.zero_le p.1) (Nat.zero_le _)⟩
  · rw [if_pos hlt]
    refine ⟨List.chain'_nil, ?_, ?_⟩
    · intro p hp
      exact absurd hp (List.not_mem_nil p)
    · simp [spliceChecked, splice]

/-- C7 (witness): evaluation on a concrete garbage-bearing input. -/
theorem C7_witness :
    List.Chain' (fun p q : Nat × Nat => p.2 < q.1)
      (Parse ("a<@UX>z<!here><#".data) ("C".data)).2 ∧
    (∀ p ∈ (Parse ("a<@UX>z<!here><#".data) ("C".data)).2,
      p.1 ≤ p.2 ∧ p.2 < ("a<@UX>z<!here><#".data : Str).length) ∧
    spliceChecked ("a<@UX>z<!here><#".data) 0
        (Parse ("a<@UX>z<!here><#".data) ("C".data)).2 =
      some (splice ("a<@UX>z<!here><#".data) 0
        (Parse ("a<@UX>z<!here><#".data) ("C".data)).2) :=
  C7_theorem ("a<@UX>z<!here><#".data) ("C".data)

/-! ## C6 — step-level facts about the parser -/

theorem pstep_init_id (c : Str) (σ : PState) (i : Nat) (r : Char)
    (hI : σ.mode = .pmodeInit) (hr : r ≠ '<') : pstep c σ i r = σ := by
  unfold pstep
  rw [if_neg hr]
  by_cases h2 : r = '>'
  · rw [if_pos h2, hI]
  · rw [if_neg h2]
    by_cases h3 : r = '@'
    · rw [if_pos h3, if_neg (by simp [hI]), if_neg (by simp [hI])]
    · rw [if_neg h3]
      by_cases h4 : r = '!'
      · rw [if_pos h4, if_neg (by simp [hI]), if_neg (by simp [hI])]
      · rw [if_neg h4]
        by_cases h5 : r = '#'
        · rw [if_pos h5, if_neg (by simp [hI])]
        · rw [if_neg h5]
          by_cases h6 : r = 'U' ∨ r = 'W'
          · rw [if_pos h6, if_neg (by simp [hI])]
          · rw [if_neg h6]
            by_cases h7 : r = '^'
            · rw [if_pos h7, if_neg (by simp [hI]), if_neg (by simp [hI])]
            · rw [if_neg h7]
              by_cases h8 : r = '|'
              · rw [if_pos h8, if_neg (by simp [hI]), if_neg (by simp [hI])]
              · rw [if_neg h8, if_pos hI]

theorem pstep_init_open (c : Str) (σ : PState) (i : Nat)
    (hI : σ.mode = .pmodeInit) :
    pstep c σ i '<' = { σ with mode := .pmodeOpen, start := i } := by
  unfold pstep
  rw [if_pos rfl, if_pos hI]

theorem pstep_shape (c : Str) (σ : PState) (i : Nat) (r : Char) :
    pstep c σ i r = σ ∨
    (σ.mode = .pmodeInit ∧ r = '<' ∧
      pstep c σ i r = { σ with mode := .pmodeOpen, start := i }) ∨
    (∃ tmp', pstep c σ i r =
      { σ with buffer := [], tmp := tmp', mode := .pmodeInit }) ∨
    (∃ m' b' t', m' ≠ .pmodeInit ∧ σ.mode ≠ .pmodeInit ∧
      pstep c σ i r = { σ with mode := m', buffer := b', tmp := t' }) ∨
    (∃ m, σ.mode ≠ .pmodeInit ∧
      pstep c σ i r = { σ with mentions := σ.mentions ++ [m], locations := σ.locations ++ [(σ.start, i)], tmp := [], buffer := [], mode := .pmodeInit }) := by
  unfold pstep
  by_cases h1 : r = '<'
  · rw [if_pos h1]
    by_cases h2 : σ.mode = .pmodeInit
    · rw [if_pos h2]
      exact Or.inr (Or.inl ⟨h2, h1, rfl⟩)
    · rw [if_neg h2]
      exact Or.inr (Or.inr (Or.inl ⟨σ.tmp, rfl⟩))
  · rw [if_neg h1]
    by_cases h2 : r = '>'
    · rw [if_pos h2]
      cases hM : σ.mode
      · exact Or.inl rfl
      · exact Or.inr (Or.inr (Or.inl ⟨[], rfl⟩))
      · exact Or.inr (Or.inr (Or.inl ⟨[], rfl⟩))
      · dsimp only
        split
        · exact Or.inr (Or.inr (Or.inr (Or.inr ⟨_, by simp [hM], rfl⟩)))
        · exact Or.inr (Or.inr (Or.inl ⟨[], rfl⟩))
      · dsimp only
        split
        · exact Or.inr (Or.inr (Or.inl ⟨[], rfl⟩))
        · exact Or.inr (Or.inr (Or.inr (Or.inr ⟨_, by simp [hM], rfl⟩)))
      · dsimp only
        split
        · exact Or.inr (Or.inr (Or.inl ⟨[], rfl⟩))
        · exact Or.inr (Or.inr (Or.inr (Or.inr ⟨_, by simp [hM], rfl⟩)))
      · dsimp only
        split
        · exact Or.inr (Or.inr (Or.inl ⟨[], rfl⟩))
        · exact Or.inr (Or.inr (Or.inr (Or.inr ⟨_, by simp [hM], rfl⟩)))
      · dsimp only
        split
        · exact Or.inr (Or.inr (Or.inl ⟨[], rfl⟩))
        · exact Or.inr (Or.inr (Or.inr (Or.inr ⟨_, by simp [hM], rfl⟩)))
    · rw [if_neg h2]
      by_cases h3 : r = '@'
      · rw [if_pos h3]
        by_cases hOp : σ.mode = .pmodeOpen
        · rw [if_pos hOp]
          exact Or.inr (Or.inr (Or.inr (Or.inl
            ⟨.pmodeAt, σ.buffer, σ.tmp, by simp, by simp [hOp], rfl⟩)))
        · rw [if_neg hOp]
          by_cases hI : σ.mode = .pmodeInit
          · rw [if_neg (by simp [hI])]
            exact Or.inl rfl
          · rw [if_pos hI]
            exact Or.inr (Or.inr (Or.inl ⟨σ.tmp, rfl⟩))
      · rw [if_neg h3]
        by_cases h4 : r = '!'
        · rw [if_pos h4]
          by_cases hOp : σ.mode = .pmodeOpen
          · rw [if_pos hOp]
            exact Or.inr (Or.inr (Or.inr (Or.inl
              ⟨.pmodeEx, σ.buffer, σ.tmp, by simp, by simp [hOp], rfl⟩)))
          · rw [if_neg hOp]
            by_cases hI : σ.mode = .pmodeInit
            · rw [if_neg (by simp [hI])]
              exact Or.inl rfl
            · rw [if_pos hI]
              exact Or.inr (Or.inr (Or.inl ⟨σ.tmp, rfl⟩))
        · rw [if_neg h4]
          by_cases h5 : r = '#'
          · rw [if_pos h5]
            by_cases hOp : σ.mode = .pmodeOpen
            · rw [if_pos hOp]
              exact Or.inr (Or.inr (Or.inr (Or.inl
                ⟨.pmodeHash, σ.buffer, σ.tmp, by simp, by simp [hOp], rfl⟩)))
            · rw [if_neg hOp]
              exact Or.inl rfl
          · rw [if_neg h5]
            by_cases h6 : r = 'U' ∨ r = 'W'
            · rw [if_pos h6]
              by_cases hMode : σ.mode = .pmodeAt ∨ σ.mode = .pmodeUser ∨
                  σ.mode = .pmodeGroup ∨ σ.mode = .pmodeEx ∨ σ.mode = .pmodeHash
              · rw [if_pos hMode]
                have hNI : σ.mode ≠ .pmodeInit := by
                  rcases hMode with h | h | h | h | h <;> simp [h]
                dsimp only
                by_cases hLen : σ.buffer.length ≥ 64
                · rw [if_pos hLen]
                  exact Or.inr (Or.inr (Or.inl ⟨σ.tmp, rfl⟩))
                · rw [if_neg hLen]
                  refine Or.inr (Or.inr (Or.inr (Or.inl
                    ⟨_, σ.buffer ++ [r], σ.tmp, ?_, hNI, rfl⟩)))
                  by_cases hAt : σ.mode = .pmodeAt
                  · rw [if_pos hAt]
                    simp
                  · rw [if_neg hAt]
                    exact hNI
              · rw [if_neg hMode]
                exact Or.inl rfl
            · rw [if_neg h6]
              by_cases h7 : r = '^'
              · rw [if_pos h7]
                by_cases hEx : σ.mode = .pmodeEx
                · rw [if_pos hEx]
                  by_cases hSub : σ.buffer = "subteam".data
                  · rw [if_pos hSub]
                    exact Or.inr (Or.inr (Or.inr (Or.inl
                      ⟨.pmodeGroup, [], σ.tmp, by simp, by simp [hEx], rfl⟩)))
                  · rw [if_neg hSub]
                    exact Or.inr (Or.inr (Or.inl ⟨σ.tmp, rfl⟩))
                · rw [if_neg hEx]
                  by_cases hI : σ.mode = .pmodeInit
                  · rw [if_neg (by simp [hI])]
                    exact Or.inl rfl
                  · rw [if_pos hI]
                    exact Or.inr (Or.inr (Or.inl ⟨σ.tmp, rfl⟩))
              · rw [if_neg h7]
                by_cases h8 : r = '|'
                · rw [if_pos h8]
                  by_cases hHash : σ.mode = .pmodeHash
                  · rw [if_pos hHash]
                    by_cases hLen : σ.buffer.length < 2
                    · rw [if_pos hLen]
                      exact Or.inr (Or.inr (Or.inl ⟨σ.tmp, rfl⟩))
                    · rw [if_neg hLen]
                      exact Or.inr (Or.inr (Or.inr (Or.inl
                        ⟨.pmodePipe, [], σ.buffer, by simp, by simp [hHash], rfl⟩)))
                  · rw [if_neg hHash]
                    by_cases hI : σ.mode = .pmodeInit
                    · rw [if_neg (by simp [hI])]
                      exact Or.inl rfl
                    · rw [if_pos hI]
                      exact Or.inr (Or.inr (Or.inl ⟨σ.tmp, rfl⟩))
                · rw [if_neg h8]
                  by_cases hI : σ.mode = .pmodeInit
                  · rw [if_pos hI]
                    exact Or.inl rfl
                  · rw [if_neg hI]
                    by_cases hAO : σ.mode = .pmodeAt ∨ σ.mode = .pmodeOpen
                    · rw [if_pos hAO]
                      exact Or.inr (Or.inr (Or.inl ⟨σ.tmp, rfl⟩))
                    · rw [if_neg hAO]
                      by_cases hLen : σ.buffer.length ≥ 64
                      · rw [if_pos hLen]
                        exact Or.inr (Or.inr (Or.inl ⟨σ.tmp, rfl⟩))
                      · rw [if_neg hLen]
                        exact Or.inr (Or.inr (Or.inr (Or.inl
                          ⟨σ.mode, σ.buffer ++ [r], σ.tmp, hI, hI, rfl⟩)))

theorem pstep_stay (c : Str) (σ : PState) (i : Nat) (r : Char)
    (h1 : σ.mode ≠ .pmodeInit) (h2 : (pstep c σ i r).mode ≠ .pmodeInit) :
    (pstep c σ i r).locations = σ.locations ∧
    (pstep c σ i r).mentions = σ.mentions ∧
    (pstep c σ i r).start = σ.start := by
  rcases pstep_shape c σ i r with h | ⟨hI, -, -⟩ | ⟨tmp', h⟩ |
    ⟨m', b', t', -, -, h⟩ | ⟨m, -, h⟩
  · rw [h]
    exact ⟨rfl, rfl, rfl⟩
  · exact absurd hI h1
  · rw [h] at h2
    exact absurd rfl h2
  · rw [h]
    exact ⟨rfl, rfl, rfl⟩
  · rw [h] at h2
    exact absurd rfl h2

theorem pstep_death_or_emit (c : Str) (σ : PState) (i : Nat) (r : Char)
    (h1 : σ.mode ≠ .pmodeInit) (h2 : (pstep c σ i r).mode = .pmodeInit) :
    (pstep c σ i r).buffer = [] ∧
    (((pstep c σ i r).locations = σ.locations ∧
      (pstep c σ i r).mentions = σ.mentions) ∨
     ((pstep c σ i r).locations = σ.locations ++ [(σ.start, i)] ∧
      ∃ m, (pstep c σ i r).mentions = σ.mentions ++ [m])) := by
  rcases pstep_shape c σ i r with h | ⟨hI, -, -⟩ | ⟨tmp', h⟩ |
    ⟨m', b', t', hm', -, h⟩ | ⟨m, -, h⟩
  · rw [h] at h2
    exact absurd h2 h1
  · exact absurd hI h1
  · rw [h]
    exact ⟨rfl, Or.inl ⟨rfl, rfl⟩⟩
  · rw [h] at h2
    exact absurd h2 hm'
  · rw [h]
    exact ⟨rfl, Or.inr ⟨rfl, m, rfl⟩⟩

theorem pstep_append_only (c : Str) (σ : PState) (i : Nat) (r : Char) :
    ∃ dm dl, (pstep c σ i r).mentions = σ.mentions ++ dm ∧
      (pstep c σ i r).locations = σ.locations ++ dl := by
  rcases pstep_shape c σ i r with h | ⟨-, -, h⟩ | ⟨tmp', h⟩ |
    ⟨m', b', t', -, -, h⟩ | ⟨m, -, h⟩ <;> rw [h]
  · exact ⟨[], [], by simp, by simp⟩
  · exact ⟨[], [], by simp, by simp⟩
  · exact ⟨[], [], by simp, by simp⟩
  · exact ⟨[], [], by simp, by simp⟩
  · exact ⟨[m], [(σ.start, i)], rfl, rfl⟩

theorem prun_append (c : Str) :
    ∀ (xs ys : Str) (σ : PState) (i : Nat),
      prun c σ i (xs ++ ys) = prun c (prun c σ i xs) (i + xs.length) ys := by
  intro xs
  induction xs with
  | nil =>
    intro ys σ i
    simp [prun]
  | cons r rest ih =>
    intro ys σ i
    have harith : i + (r :: rest).length = i + 1 + rest.length := by
      simp
      omega
    rw [List.cons_append, prun, ih, harith, prun]

theorem prun_append_only (c : Str) :
    ∀ (z : Str) (σ : PState) (i : Nat),
      ∃ dm dl, (prun c σ i z).mentions = σ.mentions ++ dm ∧
        (prun c σ i z).locations = σ.locations ++ dl := by
  intro z
  induction z with
  | nil =>
    intro σ i
    exact ⟨[], [], by simp [prun], by simp [prun]⟩
  | cons r rest ih =>
    intro σ i
    obtain ⟨dm, dl, hdm, hdl⟩ := pstep_append_only c σ i r
    obtain ⟨dm₂, dl₂, hdm₂, hdl₂⟩ := ih (pstep c σ i r) (i + 1)
    refine ⟨dm ++ dm₂, dl ++ dl₂, ?_, ?_⟩
    · rw [prun, hdm₂, hdm, List.append_assoc]
    · rw [prun, hdl₂, hdl, List.append_assoc]

theorem pstep_ctrlEq (c : Str) (σ τ : PState) (i j : Nat) (r : Char)
    (h : ctrlEq σ τ) :
    ctrlEq (pstep c σ i r) (pstep c τ j r) ∧
    ((pstep c σ i r).mentions = σ.mentions ↔
      (pstep c τ j r).mentions = τ.mentions) ∧
    ((pstep c σ i r).locations = σ.locations ↔
      (pstep c τ j r).locations = τ.locations) := by
  obtain ⟨hmode, hbuf, htmp⟩ := h
  unfold pstep
  simp only [← hmode, ← hbuf]
  by_cases h1 : r = '<'
  · simp only [if_pos h1]
    by_cases h2 : σ.mode = .pmodeInit
    · simp only [if_pos h2]
      exact ⟨⟨rfl, rfl, fun hp => nomatch hp⟩, by simp,
        by simp⟩
    · simp only [if_neg h2]
      exact ⟨⟨rfl, rfl, fun hp => nomatch hp⟩, by simp,
        by simp⟩
  · simp only [if_neg h1]
    by_cases h2 : r = '>'
    · simp only [if_pos h2]
      cases hM : σ.mode
      · exact ⟨⟨hmode, hbuf, htmp⟩, by simp, by simp⟩
      · exact ⟨⟨rfl, rfl, fun hp => nomatch hp⟩, by simp,
          by simp⟩
      · exact ⟨⟨rfl, rfl, fun hp => nomatch hp⟩, by simp,
          by simp⟩
      · dsimp only
        split
        · exact ⟨⟨rfl, rfl, fun hp => nomatch hp⟩,
            by simp, by simp⟩
        · exact ⟨⟨rfl, rfl, fun hp => nomatch hp⟩, by simp,
            by simp⟩
      · dsimp only
        split
        · exact ⟨⟨rfl, rfl, fun hp => nomatch hp⟩, by simp,
            by simp⟩
        · exact ⟨⟨rfl, rfl, fun hp => nomatch hp⟩,
            by simp, by simp⟩
      · have htp : σ.tmp = τ.tmp := htmp hM
        simp only [← htp]
        split
        · exact ⟨⟨rfl, rfl, fun hp => nomatch hp⟩, by simp,
            by simp⟩
        · exact ⟨⟨rfl, rfl, fun hp => nomatch hp⟩,
            by simp, by simp⟩
      · dsimp only
        split
        · exact ⟨⟨rfl, rfl, fun hp => nomatch hp⟩, by simp,
            by simp⟩
        · exact ⟨⟨rfl, rfl, fun hp => nomatch hp⟩,
            by simp, by simp⟩
      · dsimp only
        split
        · exact ⟨⟨rfl, rfl, fun hp => nomatch hp⟩, by simp,
            by simp⟩
        · exact ⟨⟨rfl, rfl, fun hp => nomatch hp⟩,
            by simp, by simp⟩
    · simp only [if_neg h2]
      by_cases h3 : r = '@'
      · simp only [if_pos h3]
        by_cases hOp : σ.mode = .pmodeOpen
        · simp only [if_pos hOp]
          exact ⟨⟨rfl, rfl, fun hp => nomatch hp⟩, by simp,
            by simp⟩
        · simp only [if_neg hOp]
          by_cases hI : σ.mode = .pmodeInit
          · simp only [if_neg (show ¬σ.mode ≠ .pmodeInit by simp [hI])]
            exact ⟨⟨hmode, hbuf, htmp⟩, by simp, by simp⟩
          · simp only [if_pos hI]
            exact ⟨⟨rfl, rfl, fun hp => nomatch hp⟩, by simp,
              by simp⟩
      · simp only [if_neg h3]
        by_cases h4 : r = '!'
        · simp only [if_pos h4]
          by_cases hOp : σ.mode = .pmodeOpen
          · simp only [if_pos hOp]
            exact ⟨⟨rfl, rfl, fun hp => nomatch hp⟩, by simp,
              by simp⟩
          · simp only [if_neg hOp]
            by_cases hI : σ.mode = .pmodeInit
            · simp only [if_neg (show ¬σ.mode ≠ .pmodeInit by simp [hI])]
              exact ⟨⟨hmode, hbuf, htmp⟩, by simp,
                by simp⟩
            · simp only [if_pos hI]
              exact ⟨⟨rfl, rfl, fun hp => nomatch hp⟩, by simp,
                by simp⟩
        · simp only [if_neg h4]
          by_cases h5 : r = '#'
          · simp only [if_pos h5]
            by_cases hOp : σ.mode = .pmodeOpen
            · simp only [if_pos hOp]
              exact ⟨⟨rfl, rfl, fun hp => nomatch hp⟩, by simp,
                by simp⟩
            · simp only [if_neg hOp]
              exact ⟨⟨hmode, hbuf, htmp⟩, by simp,
                by simp⟩
          · simp only [if_neg h5]
            by_cases h6 : r = 'U' ∨ r = 'W'
            · simp only [if_pos h6]
              by_cases hMode : σ.mode = .pmodeAt ∨ σ.mode = .pmodeUser ∨
                  σ.mode = .pmodeGroup ∨ σ.mode = .pmodeEx ∨ σ.mode = .pmodeHash
              · simp only [if_pos hMode]
                by_cases hLen : σ.buffer.length ≥ 64
                · simp only [if_pos hLen]
                  exact ⟨⟨rfl, rfl, fun hp => nomatch hp⟩, by simp,
                    by simp⟩
                · simp only [if_neg hLen]
                  by_cases hAt : σ.mode = .pmodeAt
                  · simp only [if_pos hAt]
                    exact ⟨⟨rfl, rfl, fun hp => nomatch hp⟩,
                      by simp, by simp⟩
                  · simp only [if_neg hAt]
                    exact ⟨⟨rfl, rfl, fun hp => htmp hp⟩, by simp,
                      by simp⟩
              · simp only [if_neg hMode]
                exact ⟨⟨hmode, hbuf, htmp⟩, by simp,
                  by simp⟩
            · simp only [if_neg h6]
              by_cases h7 : r = '^'
              · simp only [if_pos h7]
                by_cases hEx : σ.mode = .pmodeEx
                · simp only [if_pos hEx]
                  by_cases hSub : σ.buffer = "subteam".data
                  · simp only [if_pos hSub]
                    exact ⟨⟨rfl, rfl, fun hp => nomatch hp⟩,
                      by simp, by simp⟩
                  · simp only [if_neg hSub]
                    exact ⟨⟨rfl, rfl, fun hp => nomatch hp⟩,
                      by simp, by simp⟩
                · simp only [if_neg hEx]
                  by_cases hI : σ.mode = .pmodeInit
                  · simp only [if_neg (show ¬σ.mode ≠ .pmodeInit by simp [hI])]
                    exact ⟨⟨hmode, hbuf, htmp⟩, by simp,
                      by simp⟩
                  · simp only [if_pos hI]
                    exact ⟨⟨rfl, rfl, fun hp => nomatch hp⟩,
                      by simp, by simp⟩
              · simp only [if_neg h7]
                by_cases h8 : r = '|'
                · simp only [if_pos h8]
                  by_cases hHash : σ.mode = .pmodeHash
                  · simp only [if_pos hHash]
                    by_cases hLen : σ.buffer.length < 2
                    · simp only [if_pos hLen]
                      exact ⟨⟨rfl, rfl, fun hp => nomatch hp⟩,
                        by simp, by simp⟩
                    · simp only [if_neg hLen]
                      exact ⟨⟨rfl, rfl, fun _ => rfl⟩, by simp,
                        by simp⟩
                  · simp only [if_neg hHash]
                    by_cases hI : σ.mode = .pmodeInit
                    · simp only [if_neg (show ¬σ.mode ≠ .pmodeInit by simp [hI])]
                      exact ⟨⟨hmode, hbuf, htmp⟩, by simp,
                        by simp⟩
                    · simp only [if_pos hI]
                      exact ⟨⟨rfl, rfl, fun hp => nomatch hp⟩,
                        by simp, by simp⟩
                · simp only [if_neg h8]
                  by_cases hI : σ.mode = .pmodeInit
                  · simp only [if_pos hI]
                    exact ⟨⟨hmode, hbuf, htmp⟩, by simp,
                      by simp⟩
                  · simp only [if_neg hI]
                    by_cases hAO : σ.mode = .pmodeAt ∨ σ.mode = .pmodeOpen
                    · simp only [if_pos hAO]
                      exact ⟨⟨rfl, rfl, fun hp => nomatch hp⟩,
                        by simp, by simp⟩
                    · simp only [if_neg hAO]
                      by_cases hLen : σ.buffer.length ≥ 64
                      · simp only [if_pos hLen]
                        exact ⟨⟨rfl, rfl, fun hp => nomatch hp⟩,
                          by simp, by simp⟩
                      · simp only [if_neg hLen]
                        exact ⟨⟨rfl, rfl, fun hp => htmp hp⟩,
                          by simp, by simp⟩

theorem append_append_eq_self {α : Type} (l d e : List α)
    (h : l ++ (d ++ e) = l) : d = [] ∧ e = [] := by
  have hl := congrArg List.length h
  simp only [List.length_append] at hl
  exact ⟨List.length_eq_zero.mp (by omega), List.length_eq_zero.mp (by omega)⟩

theorem prun_ctrlEq (c : Str) :
    ∀ (z : Str) (σ τ : PState) (i j : Nat), ctrlEq σ τ →
      (prun c σ i z).mentions = σ.mentions →
      (prun c σ i z).locations = σ.locations →
      ctrlEq (prun c σ i z) (prun c τ j z) ∧
        (prun c τ j z).mentions = τ.mentions ∧
        (prun c τ j z).locations = τ.locations := by
  intro z
  induction z with
  | nil =>
    intro σ τ i j h hm hl
    exact ⟨h, rfl, rfl⟩
  | cons r rest ih =>
    intro σ τ i j h hm hl
    obtain ⟨dm, dl, hdm, hdl⟩ := pstep_append_only c σ i r
    obtain ⟨dm₂, dl₂, hdm₂, hdl₂⟩ := prun_append_only c rest (pstep c σ i r) (i + 1)
    rw [prun] at hm hl
    have hmm : σ.mentions ++ (dm ++ dm₂) = σ.mentions := by
      rw [← List.append_assoc, ← hdm, ← hdm₂]
      exact hm
    have hll : σ.locations ++ (dl ++ dl₂) = σ.locations := by
      rw [← List.append_assoc, ← hdl, ← hdl₂]
      exact hl
    obtain ⟨hdm0, hdm20⟩ := append_append_eq_self _ _ _ hmm
    obtain ⟨hdl0, hdl20⟩ := append_append_eq_self _ _ _ hll
    subst hdm0 hdm20 hdl0 hdl20
    have hstep := pstep_ctrlEq c σ τ i j r h
    have hσm : (pstep c σ i r).mentions = σ.mentions := by
      rw [hdm]
      simp
    have hσl : (pstep c σ i r).locations = σ.locations := by
      rw [hdl]
      simp
    have hτm : (pstep c τ j r).mentions = τ.mentions := (hstep.2.1).mp hσm
    have hτl : (pstep c τ j r).locations = τ.locations := (hstep.2.2).mp hσl
    have hmrest : (prun c (pstep c σ i r) (i + 1) rest).mentions =
        (pstep c σ i r).mentions := by
      rw [hdm₂]
      simp
    have hlrest : (prun c (pstep c σ i r) (i + 1) rest).locations =
        (pstep c σ i r).locations := by
      rw [hdl₂]
      simp
    have hrec := ih (pstep c σ i r) (pstep c τ j r) (i + 1) (j + 1)
      hstep.1 hmrest hlrest
    refine ⟨hrec.1, ?_, ?_⟩
    · rw [prun, hrec.2.1, hτm]
    · rw [prun, hrec.2.2, hτl]

theorem prun_noninit_split (c : Str) :
    ∀ (z : Str) (σ : PState) (i : Nat), σ.mode ≠ .pmodeInit →
      ((prun c σ i z).locations = σ.locations ∧
       (prun c σ i z).mentions = σ.mentions ∧
       (prun c σ i z).mode ≠ .pmodeInit) ∨
      (∃ d c0 z₂, z = d ++ c0 :: z₂ ∧
        (prun c σ i d).locations = σ.locations ∧
        (prun c σ i d).mentions = σ.mentions ∧
        (prun c σ i d).mode ≠ .pmodeInit ∧
        (prun c σ i d).start = σ.start ∧
        (pstep c (prun c σ i d) (i + d.length) c0).mode = .pmodeInit ∧
        (pstep c (prun c σ i d) (i + d.length) c0).buffer = [] ∧
        (((pstep c (prun c σ i d) (i + d.length) c0).locations = σ.locations ∧
          (pstep c (prun c σ i d) (i + d.length) c0).mentions = σ.mentions) ∨
         ((pstep c (prun c σ i d) (i + d.length) c0).locations =
            σ.locations ++ [(σ.start, i + d.length)] ∧
          ∃ m, (pstep c (prun c σ i d) (i + d.length) c0).mentions =
            σ.mentions ++ [m]))) := by
  intro z
  induction z with
  | nil =>
    intro σ i hσ
    exact Or.inl ⟨rfl, rfl, hσ⟩
  | cons r rest ih =>
    intro σ i hσ
    by_cases hτ : (pstep c σ i r).mode = .pmodeInit
    · refine Or.inr ⟨[], r, rest, rfl, rfl, rfl, hσ, rfl, ?_, ?_, ?_⟩
      · simpa using hτ
      · simpa using (pstep_death_or_emit c σ i r hσ hτ).1
      · have := (pstep_death_or_emit c σ i r hσ hτ).2
        simpa using this
    · obtain ⟨hsl, hsm, hss⟩ := pstep_stay c σ i r hσ hτ
      rcases ih (pstep c σ i r) (i + 1) hτ with ⟨h1, h2, h3⟩ |
        ⟨d, c0, z₂, hz, p1, p2, p3, p4, p5, p6, p7⟩
      · refine Or.inl ⟨?_, ?_, h3⟩
        · rw [prun, h1, hsl]
        · rw [prun, h2, hsm]
      · refine Or.inr ⟨r :: d, c0, z₂, by rw [hz]; rfl, ?_⟩
        have harith : i + (r :: d).length = i + 1 + d.length := by
          simp
          omega
        have hpr : prun c σ i (r :: d) = prun c (pstep c σ i r) (i + 1) d := by
          rw [prun]
        rw [hpr, harith]
        refine ⟨by rw [p1, hsl], by rw [p2, hsm], p3, by rw [p4, hss], p5, p6, ?_⟩
        rcases p7 with ⟨q1, q2⟩ | ⟨q1, m, q2⟩
        · exact Or.inl ⟨by rw [q1, hsl], by rw [q2, hsm]⟩
        · refine Or.inr ⟨?_, m, by rw [q2, hsm]⟩
          rw [q1, hsl, hss]

theorem prun_locs_lb (c : Str) (base : Nat) :
    ∀ (z : Str) (σ : PState) (i : Nat),
      base ≤ i → (σ.mode ≠ .pmodeInit → base ≤ σ.start ∧ σ.start < i) →
      ∀ p ∈ (prun c σ i z).locations.drop σ.locations.length,
        base ≤ p.1 ∧ p.1 < p.2 := by
  intro z
  induction z with
  | nil =>
    intro σ i hbi hst p hp
    rw [prun, List.drop_length] at hp
    exact absurd hp (List.not_mem_nil p)
  | cons r rest ih =>
    intro σ i hbi hst p hp
    rw [prun] at hp
    rcases pstep_shape c σ i r with h | ⟨hI, -, h⟩ | ⟨tmp', h⟩ |
      ⟨m', b', t', hm', hσm, h⟩ | ⟨m, hσm, h⟩
    · rw [h] at hp
      exact ih σ (i + 1) (by omega)
        (fun hm => ⟨(hst hm).1, Nat.lt_succ_of_lt (hst hm).2⟩) p hp
    · rw [h] at hp
      exact ih { σ with mode := .pmodeOpen, start := i } (i + 1) (by omega)
        (fun _ => ⟨hbi, Nat.lt_succ_self i⟩) p hp
    · rw [h] at hp
      exact ih { σ with buffer := [], tmp := tmp', mode := .pmodeInit } (i + 1)
        (by omega) (fun hm => absurd rfl hm) p hp
    · rw [h] at hp
      exact ih { σ with mode := m', buffer := b', tmp := t' } (i + 1) (by omega)
        (fun _ => ⟨(hst hσm).1, Nat.lt_succ_of_lt (hst hσm).2⟩) p hp
    · rw [h] at hp
      obtain ⟨dm, dl₂, -, hdl₂⟩ := prun_append_only c rest
        ({ σ with mentions := σ.mentions ++ [m], locations := σ.locations ++ [(σ.start, i)], tmp := [], buffer := [], mode := .pmodeInit }) (i + 1)
      rw [hdl₂] at hp
      have hsp := hst hσm
      simp only [List.append_assoc] at hp
      rw [List.drop_left] at hp
      rcases List.mem_append.mp hp with hp | hp
      · simp only [List.mem_singleton] at hp
        subst hp
        exact ⟨hsp.1, hsp.2⟩
      · have hp' : p ∈ (prun c ({ σ with mentions := σ.mentions ++ [m], locations := σ.locations ++ [(σ.start, i)], tmp := [], buffer := [], mode := .pmodeInit } : PState) (i + 1) rest).locations.drop
            (σ.locations ++ [(σ.start, i)]).length := by
          rw [hdl₂]
          have : ((σ.locations ++ [(σ.start, i)]) ++ dl₂).drop
              (σ.locations ++ [(σ.start, i)]).length = dl₂ := List.drop_left _ _
          rw [this]
          exact hp
        exact ih { σ with mentions := σ.mentions ++ [m], locations := σ.locations ++ [(σ.start, i)], tmp := [], buffer := [], mode := .pmodeInit }
          (i + 1) (by omega) (fun hm => absurd rfl hm) p hp'

theorem splice_eq_spliceFrom (m : Str) :
    ∀ (locs : List (Nat × Nat)) (start : Nat),
      List.Chain' (fun p q : Nat × Nat => p.2 < q.1) locs →
      (∀ p ∈ locs, start ≤ p.1 ∧ p.1 ≤ p.2) →
      splice m start locs = spliceFrom start (m.drop start) locs := by
  intro locs
  induction locs with
  | nil =>
    intro start _ _
    rfl
  | cons p rest ih =>
    intro start hch hb
    obtain ⟨a, b⟩ := p
    have hsa : start ≤ a := (hb (a, b) (by simp)).1
    have hab : a ≤ b := (hb (a, b) (by simp)).2
    rw [splice, spliceFrom]
    have h1 : (m.take a).drop start = (m.drop start).take (a - start) := by
      rw [List.drop_take]
    have h2 : (m.drop start).drop (b + 1 - start) = m.drop (b + 1) := by
      rw [List.drop_drop]
      congr 1
      omega
    rw [h1, h2]
    congr 1
    refine ih (b + 1) hch.tail (fun q hq => ⟨?_, (hb q (List.mem_cons_of_mem _ hq)).2⟩)
    have := chain_head_lt (a, b) rest hch
      (fun q hq => (hb q (List.mem_cons_of_mem _ hq)).2) q hq
    omega

theorem spliceFrom_skip (base : Nat) (u v : Str) (locs : List (Nat × Nat))
    (h : ∀ p ∈ locs, base + u.length ≤ p.1 ∧ p.1 < p.2) :
    spliceFrom base (u ++ v) locs = u ++ spliceFrom (base + u.length) v locs := by
  cases locs with
  | nil => rfl
  | cons p rest =>
    obtain ⟨a, b⟩ := p
    obtain ⟨ha, hab⟩ := h (a, b) (by simp)
    rw [spliceFrom, spliceFrom]
    have h1 : (u ++ v).take (a - base) = u ++ v.take (a - (base + u.length)) := by
      rw [List.take_append_eq_append_take]
      congr 1
      · exact List.take_of_length_le (by omega)
      · congr 1
        omega
    have h2 : (u ++ v).drop (b + 1 - base) = v.drop (b + 1 - (base + u.length)) := by
      rw [List.drop_append_eq_append_drop]
      rw [List.drop_eq_nil_of_le (by omega)]
      simp only [List.nil_append]
      congr 1
      omega
    rw [h1, h2, List.append_assoc]

/-- The central re-splice simulation: running the parser over the text
    obtained by deleting every span the first run recorded (from any
    clean-init state, at any index base) records no mention and no span. -/
theorem prun_resplice (c : Str) :
    ∀ (n : Nat) (z : Str), z.length ≤ n →
      ∀ (σ₁ σ₂ : PState) (i j : Nat),
        σ₁.mode = .pmodeInit → σ₁.buffer = [] →
        σ₂.mode = .pmodeInit → σ₂.buffer = [] →
        (prun c σ₂ j (spliceFrom i z
          ((prun c σ₁ i z).locations.drop σ₁.locations.length))).mentions =
          σ₂.mentions ∧
        (prun c σ₂ j (spliceFrom i z
          ((prun c σ₁ i z).locations.drop σ₁.locations.length))).locations =
          σ₂.locations := by
  intro n
  induction n with
  | zero =>
    intro z hz σ₁ σ₂ i j h1m h1b h2m h2b
    have hznil : z = [] := List.length_eq_zero.mp (by omega)
    subst hznil
    simp [prun, List.drop_length, spliceFrom]
  | succ n ih =>
    intro z hz σ₁ σ₂ i j h1m h1b h2m h2b
    have hEq : ctrlEq σ₁ σ₂ := ⟨h1m.trans h2m.symm, h1b.trans h2b.symm,
      fun hp => absurd (h1m.symm.trans hp) (by decide)⟩
    cases z with
    | nil =>
      simp [prun, List.drop_length, spliceFrom]
    | cons r rest =>
      by_cases hr : r = '<'
      · subst hr
        have hτ₀ : pstep c σ₁ i '<' = { σ₁ with mode := .pmodeOpen, start := i } :=
          pstep_init_open c σ₁ i h1m
        have hrun : prun c σ₁ i ('<' :: rest) =
            prun c { σ₁ with mode := .pmodeOpen, start := i } (i + 1) rest := by
          rw [prun, hτ₀]
        rcases prun_noninit_split c rest { σ₁ with mode := .pmodeOpen, start := i }
            (i + 1) (by simp) with ⟨ha1, ha2, ha3⟩ |
          ⟨d, c0, z₂, hzrest, p1, p2, p3, p4, p5, p6, p7⟩
        · have hloc : (prun c σ₁ i ('<' :: rest)).locations = σ₁.locations := by
            rw [hrun, ha1]
          have hmen : (prun c σ₁ i ('<' :: rest)).mentions = σ₁.mentions := by
            rw [hrun, ha2]
          rw [hloc, List.drop_length]
          have hsim := prun_ctrlEq c ('<' :: rest) σ₁ σ₂ i j hEq hmen hloc
          exact ⟨hsim.2.1, hsim.2.2⟩
        · subst hzrest
          set σD := prun c { σ₁ with mode := .pmodeOpen, start := i } (i + 1) d
            with hσD
          set τ := pstep c σD (i + 1 + d.length) c0 with hτdef
          have hu : ('<' :: (d ++ [c0])).length = d.length + 2 := by
            simp
          have hzdec : ('<' :: (d ++ c0 :: z₂)) = ('<' :: (d ++ [c0])) ++ z₂ := by
            simp
          have hF1 : prun c σ₁ i ('<' :: (d ++ [c0])) = τ := by
            rw [hτdef, hσD, prun, hτ₀, prun_append, prun, prun]
          have hF3 : prun c σ₁ i ('<' :: (d ++ c0 :: z₂)) =
              prun c τ (i + (d.length + 2)) z₂ := by
            rw [hzdec, prun_append, hF1, hu]
          have hz₂ : z₂.length ≤ n := by
            have := hz
            simp at this
            omega
          have hwgen : ∀ (L : List (Nat × Nat)),
              (∀ p ∈ L, i + (d.length + 2) ≤ p.1 ∧ p.1 < p.2) →
              spliceFrom i ('<' :: (d ++ c0 :: z₂)) L =
                ('<' :: (d ++ [c0])) ++ spliceFrom (i + (d.length + 2)) z₂ L := by
            intro L hL
            conv_lhs => rw [hzdec]
            rw [spliceFrom_skip i ('<' :: (d ++ [c0])) z₂ L
              (fun p hp => by rw [hu]; exact hL p hp)]
            rw [hu]
          rcases p7 with ⟨q1, q2⟩ | ⟨q1, m, q2⟩
          · -- death: the attempt after '<' dies with no span recorded
            have hq1 : τ.locations = σ₁.locations := q1
            have hq2 : τ.mentions = σ₁.mentions := q2
            have hΔ : (prun c σ₁ i ('<' :: (d ++ c0 :: z₂))).locations.drop
                σ₁.locations.length =
                (prun c τ (i + (d.length + 2)) z₂).locations.drop
                  τ.locations.length := by
              rw [hF3, hq1]
            have hLB := prun_locs_lb c (i + (d.length + 2)) z₂ τ
              (i + (d.length + 2)) (le_refl _) (fun hm => absurd p5 hm)
            have hmu : (prun c σ₁ i ('<' :: (d ++ [c0]))).mentions = σ₁.mentions := by
              rw [hF1]
              exact hq2
            have hlu : (prun c σ₁ i ('<' :: (d ++ [c0]))).locations = σ₁.locations := by
              rw [hF1]
              exact hq1
            have hsim := prun_ctrlEq c ('<' :: (d ++ [c0])) σ₁ σ₂ i j hEq hmu hlu
            have hσ₂m : (prun c σ₂ j ('<' :: (d ++ [c0]))).mode = .pmodeInit := by
              have h1 := hsim.1.1
              rw [hF1] at h1
              rw [← h1]
              exact p5
            have hσ₂b : (prun c σ₂ j ('<' :: (d ++ [c0]))).buffer = [] := by
              have h1 := hsim.1.2.1
              rw [hF1] at h1
              rw [← h1]
              exact p6
            have hrec := ih z₂ hz₂ τ (prun c σ₂ j ('<' :: (d ++ [c0])))
              (i + (d.length + 2)) (j + ('<' :: (d ++ [c0])).length)
              p5 p6 hσ₂m hσ₂b
            rw [hwgen _ (fun p hp => hLB p (by rw [← hΔ]; exact hp)), hΔ,
              prun_append]
            exact ⟨hrec.1.trans hsim.2.1, hrec.2.trans hsim.2.2⟩
          · -- emission: the attempt after '<' records exactly one span
            have hq1 : τ.locations = σ₁.locations ++ [(i, i + 1 + d.length)] := q1
            obtain ⟨dm₂, dl₂, hdm₂, hdl₂⟩ := prun_append_only c z₂ τ
              (i + (d.length + 2))
            have hΔ : (prun c σ₁ i ('<' :: (d ++ c0 :: z₂))).locations.drop
                σ₁.locations.length = (i, i + 1 + d.length) :: dl₂ := by
              rw [hF3, hdl₂, hq1, List.append_assoc, List.drop_left]
              rfl
            have hΔ₂ : (prun c τ (i + (d.length + 2)) z₂).locations.drop
                τ.locations.length = dl₂ := by
              rw [hdl₂, List.drop_left]
            have hw : spliceFrom i ('<' :: (d ++ c0 :: z₂))
                ((i, i + 1 + d.length) :: dl₂) =
                spliceFrom (i + (d.length + 2)) z₂ dl₂ := by
              rw [spliceFrom]
              have ht0 : i - i = 0 := by omega
              have hd0 : i + 1 + d.length + 1 - i = d.length + 2 := by omega
              rw [ht0, hd0, List.take_zero, List.nil_append]
              have hdz : ('<' :: (d ++ c0 :: z₂)).drop (d.length + 2) = z₂ := by
                rw [hzdec, ← hu, List.drop_left]
              rw [hdz]
              congr 1
              omega
            have hrec := ih z₂ hz₂ τ σ₂ (i + (d.length + 2)) j p5 p6 h2m h2b
            rw [hΔ₂] at hrec
            rw [hΔ, hw]
            exact hrec
      · have hid₁ : pstep c σ₁ i r = σ₁ := pstep_init_id c σ₁ i r h1m hr
        have hid₂ : pstep c σ₂ j r = σ₂ := pstep_init_id c σ₂ j r h2m hr
        have hrun : prun c σ₁ i (r :: rest) = prun c σ₁ (i + 1) rest := by
          rw [prun, hid₁]
        have hLB := prun_locs_lb c (i + 1) rest σ₁ (i + 1) (le_refl _)
          (fun hm => absurd h1m hm)
        have hw : spliceFrom i (r :: rest)
            ((prun c σ₁ i (r :: rest)).locations.drop σ₁.locations.length) =
            [r] ++ spliceFrom (i + 1) rest
            ((prun c σ₁ i (r :: rest)).locations.drop σ₁.locations.length) := by
          have hsk := spliceFrom_skip i [r] rest
            ((prun c σ₁ i (r :: rest)).locations.drop σ₁.locations.length) ?_
          · simpa using hsk
          · intro p hp
            rw [hrun] at hp
            have := hLB p hp
            simpa using this
        rw [hw, hrun]
        have hstep₂ : prun c σ₂ j ([r] ++ spliceFrom (i + 1) rest
            ((prun c σ₁ (i + 1) rest).locations.drop σ₁.locations.length)) =
            prun c σ₂ (j + 1) (spliceFrom (i + 1) rest
            ((prun c σ₁ (i + 1) rest).locations.drop σ₁.locations.length)) := by
          rw [List.cons_append, List.nil_append, prun, hid₂]
        rw [hstep₂]
        exact ih rest (by simpa using hz) σ₁ σ₂ (i + 1) (j + 1) h1m h1b h2m h2b

/-- C6: applying `ParseAndSplice` to the cleaned text it produced returns
    that text unchanged with no mentions — removing all recognized mention
    tokens never creates a new recognizable token from the remaining
    fragments. -/
theorem C6_theorem (s c : Str) :
    ParseAndSplice (ParseAndSplice s c).1 c = ((ParseAndSplice s c).1, []) := by
  have key : (Parse (ParseAndSplice s c).1 c).1 = [] := by
    unfold ParseAndSplice
    dsimp only
    by_cases hms : (Parse s c).1 = []
    · rw [if_pos hms]
      exact hms
    · rw [if_neg hms]
      dsimp only
      have hParseVal : ∀ (m : Str), Parse m c =
          if '<' ∉ m then ([], [])
          else ((prun c {} 0 m).mentions, (prun c {} 0 m).locations) := by
        intro m
        rfl
      by_cases hlt : '<' ∈ s
      · have hParse : Parse s c =
            ((prun c {} 0 s).mentions, (prun c {} 0 s).locations) := by
          rw [hParseVal s, if_neg (by simpa using hlt)]
        have h0 : PInv ({} : PState) 0 := by
          refine ⟨List.chain'_nil, ?_, ?_⟩
          · intro p hp
            exact absurd hp (List.not_mem_nil p)
          · intro hcon
            exact absurd rfl hcon
        obtain ⟨hchain, hb, -⟩ := prun_inv c s {} 0 h0
        have hsplice : splice s 0 (Parse s c).2 =
            spliceFrom 0 s ((prun c {} 0 s).locations) := by
          rw [hParse]
          have := splice_eq_spliceFrom s ((prun c {} 0 s).locations) 0 hchain
            (fun p hp => ⟨Nat.zero_le _, (hb p hp).1⟩)
          rw [this, List.drop_zero]
        have hres : (prun c ({} : PState) 0
            (spliceFrom 0 s ((prun c {} 0 s).locations))).mentions = [] :=
          (prun_resplice c s.length s (le_refl _) {} {} 0 0 rfl rfl rfl rfl).1
        rw [hParseVal (splice s 0 (Parse s c).2)]
        by_cases h2 : '<' ∈ splice s 0 (Parse s c).2
        · rw [if_neg (by simpa using h2)]
          dsimp only
          rw [hsplice]
          exact hres
        · rw [if_pos (by simpa using h2)]
      · have hnil : Parse s c = ([], []) := by
          rw [hParseVal s, if_pos (by simpa using hlt)]
        rw [hnil] at hms
        exact absurd rfl hms
  have hPAS : ParseAndSplice (ParseAndSplice s c).1 c =
      if (Parse (ParseAndSplice s c).1 c).1 = []
      then ((ParseAndSplice s c).1, [])
      else (splice (ParseAndSplice s c).1 0 (Parse (ParseAndSplice s c).1 c).2,
        (Parse (ParseAndSplice s c).1 c).1) := rfl
  rw [hPAS, if_pos key]

end Gopherbot

